import Mathlib

/-!
Verification development for the TriviaBot game-generation pipeline
(`generate-game` script: difficulty scoring, eligibility filtering,
question selection, date allocation and game assembly).

The JavaScript source is embedded shallowly:

* machine numbers: clue dollar values are integers (`Int`); difficulty
  scores are exact rationals (`ℚ`) — the JS float arithmetic on these
  inputs is exact at every tier boundary used by the program;
* the OpenAI-backed classifier/rewriter collaborators are modelled as an
  optional injected `Client` whose calls return `Except String _`
  (a `.error` models a thrown/rejected promise caught by the JS
  `try/catch`);
* `Math.random()`-driven choices are modelled by an injected stream
  `rng : ℕ → ℕ`, consumed at an explicit call counter; the JS
  `Math.floor(Math.random() * n)` becomes `rng c % n`, which reaches
  exactly the same outcomes;
* the filesystem (games directory, used-questions ledger, archive) is an
  explicit `GenState` record; `fs.writeFileSync` becomes a functional
  state update, and a thrown error leaves the state unchanged, mirroring
  the fact that the JS writes happen only after all checks pass;
* ISO calendar dates are abstracted to naturals (`setDate(+1)` is `+1`).
-/

/-- One archived clue record, as stored in `archive-backup.json`:
`{clue, answer, category, value, round, ...}`.  The provenance fields
(`airDate`, `gameId`) are never read by the generator and are omitted.
The `originalClue` field the filter adds is never read downstream and is
likewise omitted. -/
structure ArchiveQuestion where
  clue : String
  answer : String
  category : String
  value : Int
  round : String
  deriving Repr, DecidableEq

/-- `` `${q.clue}|${q.answer}` `` — the deduplication key used by the
used-questions ledger. -/
def questionId (q : ArchiveQuestion) : String :=
  q.clue ++ "|" ++ q.answer

/-- JS `Math.min` on rationals, written with an explicit comparison so
that concrete scores evaluate inside the kernel (it equals `min`, see
`ratMin_eq`). -/
def ratMin (a b : ℚ) : ℚ := if a ≤ b then a else b

/-- JS `Math.max` on rationals (equals `max`, see `ratMax_eq`). -/
def ratMax (a b : ℚ) : ℚ := if a ≤ b then b else a

/-- JS `calculateDifficulty` (generate-game script, lines 48–73).  The
first `if` chain in the source computes a provisional score that the
second chain unconditionally overwrites, so only the second chain and the
final `Math.max(0, Math.min(100, score))` clamp are observable; rounds
other than the three known ones keep the initial `score = 0`. -/
def calculateDifficulty (q : ArchiveQuestion) : ℚ :=
  let score : ℚ :=
    if q.round = "Jeopardy" then ((q.value : ℚ) - 200) / 800 * 20
    else if q.round = "Double Jeopardy" then 20 + ((q.value : ℚ) - 400) / 1600 * 40
    else if q.round = "Final Jeopardy" then 80
    else 0
  ratMax 0 (ratMin 100 score)

/-- JS `getDifficultyLevel` (lines 78–83). -/
def getDifficultyLevel (score : ℚ) : String :=
  if score < 10 then "easy"
  else if score < 30 then "medium"
  else if score < 50 then "hard"
  else "expert"

/-- JS `String.prototype.toLowerCase`, char-by-char. -/
def jsToLower (s : String) : String :=
  String.mk (s.data.map Char.toLower)

/-- JS `String.prototype.includes`: `pat` occurs as a contiguous
substring of `s`. -/
def strIncludes (s pat : String) : Bool :=
  s.data.tails.any (fun t => pat.data.isPrefixOf t)

/-- Result shape of the classifier: `{shouldDisqualify, reason?}`. -/
structure DisqResult where
  shouldDisqualify : Bool
  reason : Option String
  deriving Repr, DecidableEq

/-- The external LLM collaborator, modelled as two injected calls that
may fail.  `classify` stands for the whole guarded body of the JS
`try` block in `shouldDisqualifyQuestion` (chat call + JSON parse);
`rewrite` stands for the guarded body of `rewriteQuestion` (chat call +
trim + quote stripping). -/
structure Client where
  classify : ArchiveQuestion → Except String DisqResult
  rewrite : ArchiveQuestion → Except String String

/-- The theme phrases of the local heuristic (JS line 101). -/
def categoryThemes : List String :=
  ["i\x27m in", "without my", "can\x27t read", "my wet hair"]

/-- The `!openaiClient` branch of JS `shouldDisqualifyQuestion`
(lines 90–107): pure pattern matching on category and clue. -/
def localDisqualify (q : ArchiveQuestion) : DisqResult :=
  let category := jsToLower q.category
  let clue := jsToLower q.clue
  if strIncludes category "anagram" || strIncludes category "scramble"
      || strIncludes category "rearrange" then
    ⟨true, some "Anagram category"⟩
  else if categoryThemes.any (fun theme => strIncludes clue theme) then
    ⟨false, some "May need rewriting"⟩
  else
    ⟨false, none⟩

/-- JS `shouldDisqualifyQuestion` (lines 89–138): local heuristics when
no client is configured; otherwise the external call, whose error is
caught and turned into `{shouldDisqualify: false}` (fail open). -/
def shouldDisqualifyQuestion (classify : Option (ArchiveQuestion → Except String DisqResult))
    (q : ArchiveQuestion) : DisqResult :=
  match classify with
  | none => localDisqualify q
  | some f =>
    match f q with
    | .ok r => r
    | .error _ => ⟨false, none⟩

/-- JS `rewriteQuestion` (lines 144–178): returns the original clue when
no client is configured or when the external call errors (fail open). -/
def rewriteQuestion (rewrite : Option (ArchiveQuestion → Except String String))
    (q : ArchiveQuestion) : String :=
  match rewrite with
  | none => q.clue
  | some f =>
    match f q with
    | .ok s => s
    | .error _ => q.clue

/-- The rewrite trigger inside the selection filter (JS lines 204–207):
`reason?.includes('rewriting') || category includes "i'm in" ||
clue includes "can't read" || clue includes "without my"`. -/
def needsRewrite (dr : DisqResult) (q : ArchiveQuestion) : Bool :=
  (match dr.reason with
   | some s => strIncludes s "rewriting"
   | none => false)
  || strIncludes (jsToLower q.category) "i\x27m in"
  || strIncludes (jsToLower q.clue) "can\x27t read"
  || strIncludes (jsToLower q.clue) "without my"

/-- One iteration of the per-question filtering loop of `selectQuestions`
(JS lines 194–226, and identically 239–260 for finals): `none` means the
question was disqualified and dropped; otherwise the kept record carries
the (possibly rewritten) clue text. -/
def filterQuestion (client : Option Client) (q : ArchiveQuestion) : Option ArchiveQuestion :=
  let dr := shouldDisqualifyQuestion (client.map (·.classify)) q
  if dr.shouldDisqualify then none
  else
    let clue :=
      if needsRewrite dr q then rewriteQuestion (client.map (·.rewrite)) q
      else q.clue
    some { q with clue := clue }

/-- JS `Set.prototype.add` on the used-questions set, with the set
modelled as its list of elements in insertion order. -/
def setAdd (l : List String) (x : String) : List String :=
  if l.contains x then l else l ++ [x]

/-- Exchange the elements at positions `i` and `j` — the JS array
destructuring swap `[a[i], a[j]] = [a[j], a[i]]` (out-of-range indices
cannot occur in the source loops; they leave the list unchanged here). -/
def listSwap (l : List α) (i j : ℕ) : List α :=
  match l[i]?, l[j]? with
  | some a, some b => (l.set i b).set j a
  | _, _ => l

/-- Fisher–Yates loop body (JS lines 295–298 and 410–413):
`for (i = len-1; i > 0; i--) { j = floor(random()*(i+1)); swap i j }`.
The first argument is the current loop index `i`; `c` is the
`Math.random()` call counter. -/
def fisherYatesAux (rng : ℕ → ℕ) : ℕ → List α → ℕ → List α × ℕ
  | 0, l, c => (l, c)
  | i + 1, l, c =>
    let j := rng c % (i + 2)
    fisherYatesAux rng i (listSwap l (i + 1) j) (c + 1)

/-- In-place shuffle of a JS array, returning the shuffled list and the
advanced random-call counter. -/
def fisherYates (rng : ℕ → ℕ) (l : List α) (c : ℕ) : List α × ℕ :=
  fisherYatesAux rng (l.length - 1) l c

/-- Keys of a JS object in insertion order: the distinct values of `l`
in order of first occurrence (`Object.keys(questionsByCategory)`). -/
def objKeys : List String → List String
  | [] => []
  | x :: xs => x :: (objKeys xs).filter (fun y => y ≠ x)

/-- The bucket `questionsByCategory[cat][lvl]` (JS lines 280–291): the
grouping loop pushes questions in list order, so each bucket is exactly
the sublist of `filtered` with that category and difficulty level.  The
source caches `difficultyLevel` on each record; it is a pure function of
the unchanged `value`/`round` fields, so it is recomputed here. -/
def poolFor (filtered : List ArchiveQuestion) (cat lvl : String) : List ArchiveQuestion :=
  filtered.filter (fun q =>
    q.category == cat && getDifficultyLevel (calculateDifficulty q) == lvl)

/-- `pool.filter(q => !selectedQuestions.some(sq => sq.clue === q.clue))`
— the in-generation duplicate guard, comparing clue text only. -/
def availFrom (pool selected : List ArchiveQuestion) : List ArchiveQuestion :=
  pool.filter (fun q => !(selected.any (fun sq => sq.clue == q.clue)))

/-- Target difficulty for a 0-based round index (JS lines 319–327). -/
def targetDifficulty (round : ℕ) : String :=
  if round < 2 then "easy"
  else if round < 4 then "medium"
  else if round < 6 then "hard"
  else "expert"

/-- Fallback difficulty list used while *searching* for a category
(JS lines 339–343). -/
def fallbackSearchOrder (target : String) : List String :=
  if target = "expert" then ["hard", "expert"]
  else if target = "hard" then ["medium", "hard"]
  else if target = "medium" then ["easy", "medium"]
  else ["easy"]

/-- Fallback difficulty list used while *selecting* questions from the
chosen category (JS lines 394–398) — note the different order. -/
def fallbackSelectOrder (target : String) : List String :=
  if target = "expert" then ["expert", "hard"]
  else if target = "hard" then ["hard", "medium"]
  else if target = "medium" then ["medium", "easy"]
  else ["easy"]

/-- Fallback accumulation inside the category search (JS lines 350–357):
extend the candidate list by each fallback bucket (skipping the target
itself), stopping as soon as 3 candidates are reached. -/
def accumFallback (filtered selected : List ArchiveQuestion) (cat target : String) :
    List ArchiveQuestion → List String → List ArchiveQuestion
  | acc, [] => acc
  | acc, f :: fs =>
    if f = target then accumFallback filtered selected cat target acc fs
    else
      let acc2 := acc ++ availFrom (poolFor filtered cat f) selected
      if 3 ≤ acc2.length then acc2
      else accumFallback filtered selected cat target acc2 fs

/-- Candidate pool consulted by the category search for one category
(JS lines 337–357): the target bucket, widened by fallbacks only when it
holds fewer than 3 unselected questions. -/
def searchPool (filtered selected : List ArchiveQuestion) (cat target : String) :
    List ArchiveQuestion :=
  let base := availFrom (poolFor filtered cat target) selected
  if base.length < 3 then accumFallback filtered selected cat target base (fallbackSearchOrder target)
  else base

/-- Combined pool of all four buckets of one category, deduplicated
against the already selected clues (JS lines 371–376). -/
def allAvail (filtered selected : List ArchiveQuestion) (cat : String) : List ArchiveQuestion :=
  availFrom
    (poolFor filtered cat "easy" ++ poolFor filtered cat "medium"
      ++ poolFor filtered cat "hard" ++ poolFor filtered cat "expert")
    selected

/-- Category search for one round (JS lines 331–383): first pass over the
shuffled keys by target-tier pool, second pass accepting any category
with 3 questions across all tiers.  Used categories are skipped in both
passes. -/
def findCategoryForRound (filtered selected : List ArchiveQuestion)
    (usedCats keys : List String) (target : String) : Option String :=
  match keys.find? (fun cat =>
      !usedCats.contains cat
        && decide (3 ≤ (searchPool filtered selected cat target).length)) with
  | some cat => some cat
  | none =>
    keys.find? (fun cat =>
      !usedCats.contains cat && decide (3 ≤ (allAvail filtered selected cat).length))

/-- Accumulation of `questionsToChooseFrom` (JS lines 400–407): walk the
selection fallback order, appending each bucket's unselected questions,
and stop once at least 3 are gathered. -/
def choosePoolAux (filtered selected : List ArchiveQuestion) (cat : String) :
    List ArchiveQuestion → List String → List ArchiveQuestion
  | acc, [] => acc
  | acc, d :: ds =>
    let acc2 := acc ++ availFrom (poolFor filtered cat d) selected
    if 3 ≤ acc2.length then acc2
    else choosePoolAux filtered selected cat acc2 ds

/-- The full `questionsToChooseFrom` list for the chosen category. -/
def choosePool (filtered selected : List ArchiveQuestion) (cat target : String) :
    List ArchiveQuestion :=
  choosePoolAux filtered selected cat [] (fallbackSelectOrder target)

/-- The per-round selection loop of `selectQuestions` (JS lines 314–434),
recursing on the number of rounds still to build.  `round` is the 0-based
index of the round being built, `selected` the flat list of all questions
chosen so far, `usedCats` the categories already consumed, `c` the random
counter.  Returns the final flat selection (3 questions per round, in
round order) and the advanced counter.  The JS guard
`roundQuestions.length < questionsPerRound` at line 431 is unreachable
(the slice was already checked) and is omitted. -/
def selectRoundsAux (filtered : List ArchiveQuestion) (keys : List String) (rng : ℕ → ℕ) :
    ℕ → ℕ → List ArchiveQuestion → List String → ℕ →
    Except String (List ArchiveQuestion × ℕ)
  | 0, _, selected, _, c => .ok (selected, c)
  | n + 1, round, selected, usedCats, c =>
    let target := targetDifficulty round
    match findCategoryForRound filtered selected usedCats keys target with
    | none =>
      .error ("Could not find a category with enough questions for round "
        ++ toString (round + 1))
    | some cat =>
      let usedCats2 := cat :: usedCats
      let pool := choosePool filtered selected cat target
      let sc := fisherYates rng pool c
      let chosen := sc.1.take 3
      if chosen.length < 3 then
        .error ("Category \"" ++ cat ++ "\" does not have enough questions for round "
          ++ toString (round + 1))
      else
        selectRoundsAux filtered keys rng n (round + 1) (selected ++ chosen) usedCats2 sc.2

/-- Result record of `selectQuestions`: the 24 selected round questions
(in round order), the chosen final question, and the extended
used-questions set. -/
structure SelectResult where
  questions : List ArchiveQuestion
  finalQuestion : ArchiveQuestion
  usedQuestions : List String
  deriving Repr, DecidableEq

/-- The filtered non-final question pool of `selectQuestions`
(JS lines 185–228): drop used and Final Jeopardy questions, then run the
per-question eligibility filter (with possible rewriting). -/
def selFiltered (client : Option Client) (archive : List ArchiveQuestion)
    (usedQuestions : List String) : List ArchiveQuestion :=
  (archive.filter (fun q =>
    !(usedQuestions.contains (questionId q)) && q.round != "Final Jeopardy")).filterMap
    (filterQuestion client)

/-- The filtered Final Jeopardy pool of `selectQuestions`
(JS lines 231–262). -/
def selFinals (client : Option Client) (archive : List ArchiveQuestion)
    (usedQuestions : List String) : List ArchiveQuestion :=
  (archive.filter (fun q =>
    !(usedQuestions.contains (questionId q)) && q.round == "Final Jeopardy")).filterMap
    (filterQuestion client)

/-- JS `selectQuestions` (lines 183–453).  The unused `targetDate`
parameter of the source is omitted.  Filtering order follows the source:
non-final unused questions are filtered (with possible rewriting), then
final ones; the `< 24` check precedes the finals check; categories are
grouped and their key order shuffled once; eight rounds are selected;
the final question is drawn at random; all selected (possibly rewritten)
ids are added to a copy of the used set. -/
def selectQuestions (client : Option Client) (rng : ℕ → ℕ)
    (archive : List ArchiveQuestion) (usedQuestions : List String) :
    Except String SelectResult :=
  let filtered := selFiltered client archive usedQuestions
  let finals := selFinals client archive usedQuestions
  if filtered.length < 24 then
    .error ("Not enough available questions. Need 24, have " ++ toString filtered.length)
  else
    match finals with
    | [] => .error "Not enough available Final Jeopardy questions"
    | f0 :: fs =>
      let keys0 := objKeys (filtered.map (·.category))
      let kc := fisherYates rng keys0 0
      match selectRoundsAux filtered kc.1 rng 8 0 [] [] kc.2 with
      | .error e => .error e
      | .ok sc =>
        let finalQuestion := (f0 :: fs).getD (rng sc.2 % (f0 :: fs).length) f0
        let used1 := sc.1.foldl (fun acc q => setAdd acc (questionId q)) usedQuestions
        let used2 := setAdd used1 (questionId finalQuestion)
        .ok ⟨sc.1, finalQuestion, used2⟩

/-- The minimal projection `{clue, answer, category}` emitted into a
game (JS lines 423–427 / 534–538). -/
structure GeneratedQuestion where
  clue : String
  answer : String
  category : String
  deriving Repr, DecidableEq

/-- One emitted round (JS lines 531–539). -/
structure Round where
  roundNumber : ℕ
  difficulty : String
  questions : List GeneratedQuestion
  deriving Repr, DecidableEq

/-- The emitted final-trivia record (JS lines 547–551). -/
structure FinalTrivia where
  category : String
  question : String
  answer : String
  deriving Repr, DecidableEq

/-- The emitted game object (JS lines 543–552), with the ISO date
abstracted to a natural number. -/
structure Game where
  id : String
  date : ℕ
  rounds : List Round
  finalTrivia : FinalTrivia
  deriving Repr, DecidableEq

/-- Projection of a selected question into a game (drops value, round
and provenance). -/
def projectQ (q : ArchiveQuestion) : GeneratedQuestion :=
  ⟨q.clue, q.answer, q.category⟩

/-- Round assembly for 0-based index `i` (JS lines 524–540): slice 3
questions, average their recomputed difficulty scores, re-bucket, and
project.  (The slice is never empty on the reachable path; an empty
slice would divide by zero, which JS turns into `NaN` and `ℚ` into `0`.) -/
def buildRound (qs : List ArchiveQuestion) (i : ℕ) : Round :=
  let roundQuestions := (qs.drop (i * 3)).take 3
  let avg := ((roundQuestions.map calculateDifficulty).sum) / (roundQuestions.length : ℚ)
  { roundNumber := i + 1
    difficulty := getDifficultyLevel avg
    questions := roundQuestions.map projectQ }

/-- The eight emitted rounds (JS `for (let i = 0; i < 8; i++)`). -/
def buildRounds (qs : List ArchiveQuestion) : List Round :=
  (List.range 8).map (buildRound qs)

/-- `` `game-${date}` ``. -/
def gameIdFor (date : ℕ) : String :=
  "game-" ++ toString date

/-- The game object assembled from a selection result (JS lines 520–552). -/
def assembleGame (date : ℕ) (res : SelectResult) : Game :=
  { id := gameIdFor date
    date := date
    rounds := buildRounds res.questions
    finalTrivia := ⟨res.finalQuestion.category, res.finalQuestion.clue,
      res.finalQuestion.answer⟩ }

/-- The persistent state touched by the generator: the games directory
(an association list keyed by date), the used-questions ledger file, and
the read-only archive file. -/
structure GenState where
  games : List (ℕ × Game)
  usedFile : List String
  archive : List ArchiveQuestion
  deriving Repr, DecidableEq

/-- `fs.existsSync(path.join(GAMES_DIR, "game-<date>.json"))`. -/
def hasGameFile (st : GenState) (d : ℕ) : Bool :=
  st.games.any (fun p => p.1 == d)

/-- `fs.writeFileSync` on a game file: create or overwrite the entry for
this date. -/
def putGame (gs : List (ℕ × Game)) (d : ℕ) (g : Game) : List (ℕ × Game) :=
  (d, g) :: gs.filter (fun p => p.1 != d)

/-- JS `findNextAvailableDate` (lines 459–478): scan up to 365 days from
the requested date (or today) for a free date; if every day is taken,
fall back to the requested date (or today), accepting an overwrite. -/
def findNextAvailableDate (st : GenState) (today : ℕ) (targetDate : Option ℕ) : ℕ :=
  let start := targetDate.getD today
  match (List.range 365).find? (fun i => !hasGameFile st (start + i)) with
  | some i => start + i
  | none => targetDate.getD today

/-- The body of JS `generateGame` from the `loadData()` call on
(lines 507–562): empty-archive guard, question selection, round
assembly, then — only on success — the two file writes (game file and
used-questions ledger).  A thrown error propagates with the state
untouched, which is exactly the JS behaviour since both
`fs.writeFileSync` calls happen after every failure point. -/
def generateGameCore (client : Option Client) (rng : ℕ → ℕ) (date : ℕ)
    (st : GenState) : GenState × Except String String :=
  if st.archive.length == 0 then
    (st, .error "Archive is empty. Please run the scraper first.")
  else
    match selectQuestions client rng st.archive st.usedFile with
    | .error e => (st, .error e)
    | .ok res =>
      let game := assembleGame date res
      ({ st with games := putGame st.games date game, usedFile := res.usedQuestions },
        .ok (gameIdFor date))

/-- JS `generateGame` (lines 483–563).  With a requested date that
already has a game file, return its identifier untouched (lines
501–504); otherwise (requested free date, or the next available date
when none is requested) run the generation body. -/
def generateGame (client : Option Client) (rng : ℕ → ℕ) (today : ℕ)
    (targetDate : Option ℕ) (st : GenState) : GenState × Except String String :=
  match targetDate with
  | some d =>
    if hasGameFile st d then (st, .ok (gameIdFor d))
    else generateGameCore client rng d st
  | none =>
    let d := findNextAvailableDate st today none
    generateGameCore client rng d st

/-! ### Basic facts about the embedded primitives -/

theorem ratMin_eq (a b : ℚ) : ratMin a b = min a b := by rw [ratMin, min_def]

theorem ratMax_eq (a b : ℚ) : ratMax a b = max a b := by rw [ratMax, max_def]

theorem calculateDifficulty_nonneg (q : ArchiveQuestion) : 0 ≤ calculateDifficulty q := by
  unfold calculateDifficulty
  rw [ratMax_eq]
  exact le_max_left 0 _

theorem calculateDifficulty_le (q : ArchiveQuestion) : calculateDifficulty q ≤ 100 := by
  unfold calculateDifficulty
  rw [ratMax_eq, ratMin_eq]
  exact max_le (by norm_num) (min_le_left _ _)

theorem getDifficultyLevel_easy_iff {s : ℚ} : getDifficultyLevel s = "easy" ↔ s < 10 := by
  unfold getDifficultyLevel
  split_ifs with h1 h2 h3
  · exact iff_of_true rfl h1
  · exact iff_of_false (by decide) h1
  · exact iff_of_false (by decide) h1
  · exact iff_of_false (by decide) h1

theorem getDifficultyLevel_medium_iff {s : ℚ} :
    getDifficultyLevel s = "medium" ↔ 10 ≤ s ∧ s < 30 := by
  unfold getDifficultyLevel
  split_ifs with h1 h2 h3
  · exact iff_of_false (by decide) (fun h => by linarith [h.1])
  · exact iff_of_true rfl ⟨by linarith [not_lt.mp h1], h2⟩
  · exact iff_of_false (by decide) (fun h => by linarith [h.2, not_lt.mp h2])
  · exact iff_of_false (by decide) (fun h => by linarith [h.2, not_lt.mp h2])

theorem getDifficultyLevel_hard_iff {s : ℚ} :
    getDifficultyLevel s = "hard" ↔ 30 ≤ s ∧ s < 50 := by
  unfold getDifficultyLevel
  split_ifs with h1 h2 h3
  · exact iff_of_false (by decide) (fun h => by linarith [h.1])
  · exact iff_of_false (by decide) (fun h => by linarith [h.1])
  · exact iff_of_true rfl ⟨by linarith [not_lt.mp h2], h3⟩
  · exact iff_of_false (by decide) (fun h => by linarith [h.2, not_lt.mp h3])

theorem getDifficultyLevel_expert_iff {s : ℚ} :
    getDifficultyLevel s = "expert" ↔ 50 ≤ s := by
  unfold getDifficultyLevel
  split_ifs with h1 h2 h3
  · exact iff_of_false (by decide) (fun h => by linarith)
  · exact iff_of_false (by decide) (fun h => by linarith)
  · exact iff_of_false (by decide) (fun h => by linarith)
  · exact iff_of_true rfl (by linarith [not_lt.mp h3])

theorem set_self_of_getElem? {α : Type _} {l : List α} {n : ℕ} {a : α}
    (h : l[n]? = some a) : l.set n a = l := by
  induction l generalizing n with
  | nil => simp at h
  | cons x xs ih =>
    cases n with
    | zero => simp_all
    | succ m =>
      simp only [List.getElem?_cons_succ] at h
      simp [List.set, ih h]

theorem cons_set_perm {α : Type _} (a : α) {l : List α} {n : ℕ} {b : α}
    (h : l[n]? = some b) : (b :: l.set n a).Perm (a :: l) := by
  induction l generalizing n with
  | nil => simp at h
  | cons x xs ih =>
    cases n with
    | zero =>
      simp only [List.getElem?_cons_zero, Option.some_inj] at h
      obtain rfl : x = b := h
      simpa [List.set] using List.Perm.swap a x xs
    | succ m =>
      simp only [List.getElem?_cons_succ] at h
      have e : (b :: (x :: xs).set (m + 1) a) = b :: x :: xs.set m a := by simp [List.set]
      rw [e]
      exact ((List.Perm.swap x b (xs.set m a)).trans ((ih h).cons x)).trans
        (List.Perm.swap a x xs)

theorem listSwap_perm_of_lt {α : Type _} :
    ∀ (l : List α) (i j : ℕ), i < j → (listSwap l i j).Perm l
  | [], _, _, _ => by simp [listSwap]
  | _ :: _, 0, 0, h => absurd h (lt_irrefl 0)
  | _ :: _, i + 1, 0, h => absurd h (by omega)
  | x :: xs, 0, j + 1, _ => by
    unfold listSwap
    simp only [List.getElem?_cons_zero, List.getElem?_cons_succ]
    cases h : xs[j]? with
    | none => exact List.Perm.refl _
    | some b =>
      simpa [List.set] using cons_set_perm x h
  | x :: xs, i + 1, j + 1, hij => by
    unfold listSwap
    simp only [List.getElem?_cons_succ]
    cases h1 : xs[i]? with
    | none => exact List.Perm.refl _
    | some a =>
      cases h2 : xs[j]? with
      | none => exact List.Perm.refl _
      | some b =>
        have ih := listSwap_perm_of_lt xs i j (by omega)
        rw [listSwap, h1, h2] at ih
        simpa [List.set] using ih.cons x

theorem listSwap_eq_swap_comm {α : Type _} (l : List α) (i j : ℕ) (h : i ≠ j) :
    listSwap l i j = listSwap l j i := by
  unfold listSwap
  cases h1 : l[i]? with
  | none => cases h2 : l[j]? <;> rfl
  | some a =>
    cases h2 : l[j]? with
    | none => rfl
    | some b => exact List.set_comm b a l h

theorem listSwap_perm {α : Type _} (l : List α) (i j : ℕ) : (listSwap l i j).Perm l := by
  rcases Nat.lt_trichotomy i j with h | h | h
  · exact listSwap_perm_of_lt l i j h
  · subst h
    have e : listSwap l i i = l := by
      unfold listSwap
      cases h1 : l[i]? with
      | none => rfl
      | some a =>
        show (l.set i a).set i a = l
        rw [List.set_set, set_self_of_getElem? h1]
    rw [e]
  · rw [listSwap_eq_swap_comm l i j (by omega)]
    exact listSwap_perm_of_lt l j i h

theorem fisherYatesAux_perm {α : Type _} (rng : ℕ → ℕ) :
    ∀ (i : ℕ) (l : List α) (c : ℕ), ((fisherYatesAux rng i l c).1).Perm l
  | 0, l, _ => List.Perm.refl l
  | i + 1, l, c =>
    (fisherYatesAux_perm rng i (listSwap l (i + 1) (rng c % (i + 2))) (c + 1)).trans
      (listSwap_perm l (i + 1) (rng c % (i + 2)))

theorem fisherYates_perm {α : Type _} (rng : ℕ → ℕ) (l : List α) (c : ℕ) :
    ((fisherYates rng l c).1).Perm l :=
  fisherYatesAux_perm rng (l.length - 1) l c

theorem objKeys_nodup : ∀ l : List String, (objKeys l).Nodup
  | [] => List.Pairwise.nil
  | x :: xs => by
    rw [objKeys, List.nodup_cons]
    refine ⟨fun h => ?_, (objKeys_nodup xs).filter _⟩
    have := List.mem_filter.mp h
    simp at this

theorem mem_objKeys : ∀ {l : List String} {y : String}, y ∈ objKeys l ↔ y ∈ l
  | [], y => by simp [objKeys]
  | x :: xs, y => by
    rw [objKeys]
    by_cases hxy : y = x
    · subst hxy; simp
    · simp only [List.mem_cons, List.mem_filter]
      constructor
      · rintro (h | ⟨h, _⟩)
        · exact .inl h
        · exact .inr (mem_objKeys.mp h)
      · rintro (h | h)
        · exact .inl h
        · exact .inr ⟨mem_objKeys.mpr h, by simpa using hxy⟩

theorem mem_setAdd_of_mem {l : List String} {x y : String} (h : y ∈ l) : y ∈ setAdd l x := by
  unfold setAdd
  split <;> simp [h]

theorem mem_setAdd_self (l : List String) (x : String) : x ∈ setAdd l x := by
  unfold setAdd
  split_ifs with h
  · simpa [List.contains, List.elem_iff] using h
  · simp

theorem mem_foldl_setAdd_of_mem :
    ∀ (qs : List ArchiveQuestion) (acc : List String) (y : String), y ∈ acc →
      y ∈ qs.foldl (fun a q => setAdd a (questionId q)) acc
  | [], _, _, h => h
  | q :: qs, acc, y, h =>
    mem_foldl_setAdd_of_mem qs (setAdd acc (questionId q)) y (mem_setAdd_of_mem h)

theorem questionId_mem_foldl :
    ∀ (qs : List ArchiveQuestion) (acc : List String) (q : ArchiveQuestion), q ∈ qs →
      questionId q ∈ qs.foldl (fun a p => setAdd a (questionId p)) acc := by
  intro qs
  induction qs with
  | nil => intro _ _ h; simp at h
  | cons p ps ih =>
    intro acc q hq
    rcases List.mem_cons.mp hq with h | h
    · subst h
      exact mem_foldl_setAdd_of_mem ps _ _ (mem_setAdd_self acc (questionId q))
    · exact ih _ q h

theorem subset_foldl_setAdd (qs : List ArchiveQuestion) (acc : List String) :
    acc ⊆ qs.foldl (fun a q => setAdd a (questionId q)) acc :=
  fun _ hy => mem_foldl_setAdd_of_mem qs acc _ hy

theorem isPrefixOf_append_self : ∀ (l t : List Char), l.isPrefixOf (l ++ t) = true
  | [], _ => by simp [List.isPrefixOf]
  | c :: cs, t => by simp [List.isPrefixOf, isPrefixOf_append_self cs t]

theorem strIncludes_of_data_eq {s pat : String} (h : ∃ t, s.data = pat.data ++ t) :
    strIncludes s pat = true := by
  unfold strIncludes
  rw [List.any_eq_true]
  refine ⟨s.data, (List.mem_tails _ _).mpr (List.suffix_refl _), ?_⟩
  obtain ⟨t, ht⟩ := h
  rw [ht]
  exact isPrefixOf_append_self pat.data t

theorem jsToLower_append (a b : String) : jsToLower (a ++ b) = jsToLower a ++ jsToLower b := by
  apply String.ext
  simp [jsToLower, String.data_append]

/-- Claim-side reading of "an error whose message identifies
*not enough available questions*": the lowercased message contains that
phrase. -/
def mentionsNotEnough (msg : String) : Bool :=
  strIncludes (jsToLower msg) "not enough available questions"

theorem mentionsNotEnough_msg (n : ℕ) :
    mentionsNotEnough ("Not enough available questions. Need 24, have " ++ toString n) = true := by
  unfold mentionsNotEnough
  rw [jsToLower_append]
  have e : jsToLower "Not enough available questions. Need 24, have " =
      "not enough available questions. need 24, have " := by decide
  rw [e]
  apply strIncludes_of_data_eq
  refine ⟨(". need 24, have " : String).data ++ (jsToLower (toString n)).data, ?_⟩
  rw [String.data_append]
  have e2 : ("not enough available questions. need 24, have " : String).data =
      ("not enough available questions" : String).data ++ (". need 24, have " : String).data := by
    decide
  rw [e2, List.append_assoc]

theorem slice_flatten_of_blocks {α : Type _} :
    ∀ (blocks : List (List α)), (∀ b ∈ blocks, b.length = 3) →
      ∀ i, i < blocks.length → (blocks.flatten.drop (3 * i)).take 3 = blocks.getD i []
  | [], _, i, hi => by simp at hi
  | b :: bs, h, 0, _ => by
    have hb : b.length = 3 := h b (by simp)
    simp only [List.flatten_cons, Nat.mul_zero, List.drop_zero, List.getD_cons_zero]
    rw [← hb, List.take_left]
  | b :: bs, h, i + 1, hi => by
    have hb : b.length = 3 := h b (by simp)
    have e : 3 * (i + 1) = b.length + 3 * i := by omega
    simp only [List.flatten_cons, List.getD_cons_succ]
    rw [e, List.drop_append]
    exact slice_flatten_of_blocks bs (fun x hx => h x (by simp [hx])) i (by simpa using hi)

theorem range_flatMap_slices {α β : Type _} (f : α → β) :
    ∀ (n : ℕ) (qs : List α),
      (List.range n).flatMap (fun i => ((qs.drop (3 * i)).take 3).map f) =
        (qs.take (3 * n)).map f
  | 0, qs => by simp
  | n + 1, qs => by
    rw [List.range_succ, List.flatMap_append, range_flatMap_slices f n qs]
    have e : 3 * (n + 1) = 3 * n + 3 := by omega
    rw [e, List.take_add, List.map_append]
    simp

theorem not_mem_of_contains_eq_false {l : List String} {x : String}
    (h : l.contains x = false) : x ∉ l := by
  intro hx
  rw [show l.contains x = l.elem x from rfl, List.elem_iff.mpr hx] at h
  simp at h

theorem mem_availFrom {pool selected : List ArchiveQuestion} {q : ArchiveQuestion}
    (h : q ∈ availFrom pool selected) :
    q ∈ pool ∧ ∀ sq ∈ selected, sq.clue ≠ q.clue := by
  obtain ⟨hq, hp⟩ := List.mem_filter.mp h
  refine ⟨hq, fun sq hsq => ?_⟩
  rw [Bool.not_eq_true'] at hp
  have := List.any_eq_false.mp hp sq hsq
  simpa using this

theorem mem_poolFor {filtered : List ArchiveQuestion} {cat lvl : String} {q : ArchiveQuestion}
    (h : q ∈ poolFor filtered cat lvl) :
    q ∈ filtered ∧ q.category = cat ∧ getDifficultyLevel (calculateDifficulty q) = lvl := by
  obtain ⟨hq, hp⟩ := List.mem_filter.mp h
  simp only [Bool.and_eq_true, beq_iff_eq] at hp
  exact ⟨hq, hp.1, hp.2⟩

theorem mem_choosePoolAux {filtered selected : List ArchiveQuestion} {cat : String} :
    ∀ (ds : List String) (acc : List ArchiveQuestion) (q : ArchiveQuestion),
      q ∈ choosePoolAux filtered selected cat acc ds →
      q ∈ acc ∨ (q ∈ filtered ∧ q.category = cat ∧ ∀ sq ∈ selected, sq.clue ≠ q.clue)
  | [], _, _, h => .inl h
  | d :: ds, acc, q, h => by
    rw [choosePoolAux] at h
    have fromApp : q ∈ acc ++ availFrom (poolFor filtered cat d) selected →
        q ∈ acc ∨ (q ∈ filtered ∧ q.category = cat ∧ ∀ sq ∈ selected, sq.clue ≠ q.clue) := by
      intro hq
      rcases List.mem_append.mp hq with h1 | h2
      · exact .inl h1
      · obtain ⟨hp, hfresh⟩ := mem_availFrom h2
        obtain ⟨hf, hc, _⟩ := mem_poolFor hp
        exact .inr ⟨hf, hc, hfresh⟩
    split_ifs at h with hlen
    · exact fromApp h
    · rcases mem_choosePoolAux ds _ q h with h1 | h2
      · exact fromApp h1
      · exact .inr h2

theorem mem_choosePool {filtered selected : List ArchiveQuestion} {cat target : String}
    {q : ArchiveQuestion} (h : q ∈ choosePool filtered selected cat target) :
    q ∈ filtered ∧ q.category = cat ∧ ∀ sq ∈ selected, sq.clue ≠ q.clue := by
  rcases mem_choosePoolAux _ _ q h with h1 | h2
  · simp at h1
  · exact h2

theorem findCategoryForRound_some {filtered selected : List ArchiveQuestion}
    {usedCats keys : List String} {target cat : String}
    (h : findCategoryForRound filtered selected usedCats keys target = some cat) :
    cat ∈ keys ∧ cat ∉ usedCats := by
  unfold findCategoryForRound at h
  rcases hfind : keys.find? (fun c => !usedCats.contains c
      && decide (3 ≤ (searchPool filtered selected c target).length)) with _ | c1
  · rw [hfind] at h
    have hmem := List.mem_of_find?_eq_some h
    have hp := List.find?_some h
    simp only [Bool.and_eq_true, Bool.not_eq_true'] at hp
    exact ⟨hmem, not_mem_of_contains_eq_false hp.1⟩
  · rw [hfind] at h
    obtain rfl : c1 = cat := by simpa using h
    have hmem := List.mem_of_find?_eq_some hfind
    have hp := List.find?_some hfind
    simp only [Bool.and_eq_true, Bool.not_eq_true'] at hp
    exact ⟨hmem, not_mem_of_contains_eq_false hp.1⟩

/-- Shape invariant of the block list appended by the round-selection
loop: each block is a fresh category's 3 questions from the filtered
pool, clue-fresh against everything selected before the loop started;
categories are pairwise distinct and blocks pairwise clue-disjoint. -/
def BlocksSpec (filtered selected : List ArchiveQuestion) (usedCats : List String)
    (bs : List (String × List ArchiveQuestion)) : Prop :=
  (∀ p ∈ bs, p.1 ∉ usedCats ∧ p.2.length = 3 ∧
      ∀ q ∈ p.2, q ∈ filtered ∧ q.category = p.1 ∧ ∀ sq ∈ selected, sq.clue ≠ q.clue) ∧
  (bs.map Prod.fst).Nodup ∧
  bs.Pairwise (fun p1 p2 => ∀ q1 ∈ p1.2, ∀ q2 ∈ p2.2, q1.clue ≠ q2.clue)

theorem selectRoundsAux_spec (filtered : List ArchiveQuestion) (keys : List String)
    (rng : ℕ → ℕ) :
    ∀ (n round : ℕ) (selected : List ArchiveQuestion) (usedCats : List String) (c : ℕ)
      (res : List ArchiveQuestion) (c2 : ℕ),
      selectRoundsAux filtered keys rng n round selected usedCats c = .ok (res, c2) →
      ∃ bs : List (String × List ArchiveQuestion),
        res = selected ++ (bs.map Prod.snd).flatten ∧
        bs.length = n ∧
        BlocksSpec filtered selected usedCats bs := by
  intro n
  induction n with
  | zero =>
    intro round selected usedCats c res c2 h
    rw [selectRoundsAux] at h
    obtain ⟨h1, h2⟩ : selected = res ∧ c = c2 := by
      have := Except.ok.inj h
      exact ⟨congrArg Prod.fst this, congrArg Prod.snd this⟩
    refine ⟨[], by simp [h1], rfl, ?_⟩
    refine ⟨by simp, by simp, by simp⟩
  | succ n ih =>
    intro round selected usedCats c res c2 h
    simp only [selectRoundsAux] at h
    split at h
    next hfc => simp at h
    next cat hfc =>
      split_ifs at h with hlen
      obtain ⟨hkeys, hnotused⟩ := findCategoryForRound_some hfc
      obtain ⟨bs', hres, hblen, hspec1, hspec2, hspec3⟩ := ih (round + 1) _ _ _ _ _ h
      set pool := choosePool filtered selected cat (targetDifficulty round) with hpooldef
      set chosen := (fisherYates rng pool c).1.take 3 with hchdef
      have hchlen : chosen.length = 3 := by
        have h1 : chosen.length ≤ 3 := by
          rw [hchdef, List.length_take]; omega
        omega
      have hchmem : ∀ q ∈ chosen,
          q ∈ filtered ∧ q.category = cat ∧ ∀ sq ∈ selected, sq.clue ≠ q.clue := by
        intro q hq
        have h1 : q ∈ (fisherYates rng pool c).1 := List.take_subset 3 _ hq
        have h2 : q ∈ pool := (fisherYates_perm rng pool c).mem_iff.mp h1
        exact mem_choosePool h2
      refine ⟨(cat, chosen) :: bs', ?_, by simpa using hblen, ?_, ?_, ?_⟩
      · rw [hres]; simp
      · intro p hp
        rcases List.mem_cons.mp hp with h1 | h1
        · subst h1
          exact ⟨hnotused, hchlen, hchmem⟩
        · obtain ⟨hpu, hpl, hpm⟩ := hspec1 p h1
          refine ⟨fun hin => hpu (List.mem_cons_of_mem _ hin), hpl, fun q hq => ?_⟩
          obtain ⟨ha, hb, hc⟩ := hpm q hq
          exact ⟨ha, hb, fun sq hsq => hc sq (List.mem_append_left _ hsq)⟩
      · rw [List.map_cons, List.nodup_cons]
        refine ⟨fun hmem => ?_, hspec2⟩
        obtain ⟨p, hp, hpc⟩ := List.mem_map.mp hmem
        exact (hspec1 p hp).1 (by rw [hpc]; exact List.mem_cons_self _ _)
      · refine List.Pairwise.cons (fun p2 hp2 q1 hq1 q2 hq2 => ?_) hspec3
        have hfr := ((hspec1 p2 hp2).2.2 q2 hq2).2.2 q1 (List.mem_append_right _ hq1)
        exact hfr

theorem contains_eq_false_of_not_mem {l : List String} {x : String} (h : x ∉ l) :
    l.contains x = false := by
  cases hc : l.contains x
  · rfl
  · exact absurd (by simpa [List.contains, List.elem_iff] using hc) h

theorem availFrom_eq_of_fresh {pool selected : List ArchiveQuestion}
    (h : ∀ q ∈ pool, ∀ sq ∈ selected, sq.clue ≠ q.clue) : availFrom pool selected = pool := by
  apply List.filter_eq_self.mpr
  intro q hq
  rw [Bool.not_eq_true']
  apply List.any_eq_false.mpr
  intro sq hsq
  simpa using h q hq sq hsq

theorem exists_unused_key {keys usedCats : List String} (hnd : keys.Nodup)
    (hlt : usedCats.length < keys.length) : ∃ k ∈ keys, k ∉ usedCats := by
  by_contra hcon
  push_neg at hcon
  have hsub : keys ⊆ usedCats := fun k hk => hcon k hk
  have := (hnd.subperm hsub).length_le
  omega

theorem targetDifficulty_mem (r : ℕ) :
    targetDifficulty r ∈ (["easy", "medium", "hard", "expert"] : List String) := by
  unfold targetDifficulty
  split_ifs <;> simp

theorem fallbackSelectOrder_head (r : ℕ) :
    ∃ ds, fallbackSelectOrder (targetDifficulty r) = targetDifficulty r :: ds := by
  unfold targetDifficulty
  split_ifs
  · exact ⟨[], by decide⟩
  · exact ⟨["easy"], by decide⟩
  · exact ⟨["medium"], by decide⟩
  · exact ⟨["hard"], by decide⟩

theorem fresh_of_cat_unused {filtered selected : List ArchiveQuestion} {usedCats : List String}
    (hnd : (filtered.map (fun q => q.clue)).Nodup)
    (hsel : ∀ q ∈ selected, q ∈ filtered ∧ q.category ∈ usedCats)
    {cat lvl : String} (hcat : cat ∉ usedCats) :
    ∀ q ∈ poolFor filtered cat lvl, ∀ sq ∈ selected, sq.clue ≠ q.clue := by
  intro q hq sq hsq heq
  obtain ⟨hqf, hqc, _⟩ := mem_poolFor hq
  obtain ⟨hsf, hsc⟩ := hsel sq hsq
  have hss : sq = q := List.inj_on_of_nodup_map hnd hsf hqf heq
  rw [hss, hqc] at hsc
  exact hcat hsc

theorem selectRoundsAux_scenario (filtered : List ArchiveQuestion) (keys : List String)
    (rng : ℕ → ℕ) (hknd : keys.Nodup) (hklen : keys.length = 8)
    (hclue : (filtered.map (fun q => q.clue)).Nodup)
    (hpool : ∀ cat ∈ keys, ∀ r : ℕ, (poolFor filtered cat (targetDifficulty r)).length = 3) :
    ∀ (n round : ℕ) (selected : List ArchiveQuestion) (usedCats : List String) (c : ℕ),
      round + n = 8 → usedCats.length = round →
      (∀ q ∈ selected, q ∈ filtered ∧ q.category ∈ usedCats) →
      ∃ rest c2,
        selectRoundsAux filtered keys rng n round selected usedCats c =
          .ok (selected ++ rest, c2) ∧
        rest.length = 3 * n ∧
        ∀ i, i < n → ∀ q ∈ (rest.drop (3 * i)).take 3,
          getDifficultyLevel (calculateDifficulty q) = targetDifficulty (round + i) := by
  intro n
  induction n with
  | zero =>
    intro round selected usedCats c _ _ _
    exact ⟨[], c, by rw [selectRoundsAux, List.append_nil], by simp,
      fun i hi => absurd hi (Nat.not_lt_zero i)⟩
  | succ n ih =>
    intro round selected usedCats c h8 hul hsel
    have havail : ∀ cat, cat ∉ usedCats → ∀ lvl,
        availFrom (poolFor filtered cat lvl) selected = poolFor filtered cat lvl :=
      fun cat hc lvl => availFrom_eq_of_fresh (fresh_of_cat_unused hclue hsel hc)
    have hsearch : ∀ cat ∈ keys, cat ∉ usedCats →
        searchPool filtered selected cat (targetDifficulty round) =
          poolFor filtered cat (targetDifficulty round) := by
      intro cat hck hcu
      unfold searchPool
      rw [havail cat hcu (targetDifficulty round)]
      rw [if_neg (by rw [hpool cat hck round]; omega)]
    have hpred : ∀ cat ∈ keys, cat ∉ usedCats →
        (!usedCats.contains cat
          && decide (3 ≤ (searchPool filtered selected cat (targetDifficulty round)).length))
          = true := by
      intro cat hck hcu
      have hcf := contains_eq_false_of_not_mem hcu
      rw [hsearch cat hck hcu]
      simp [hpool cat hck round, hcf]
      exact hcu
    have hex : ∃ k ∈ keys, k ∉ usedCats := exists_unused_key hknd (by omega)
    have hfindsome : ∃ cat, keys.find? (fun c0 => !usedCats.contains c0
        && decide (3 ≤ (searchPool filtered selected c0 (targetDifficulty round)).length))
        = some cat := by
      obtain ⟨k, hk, hku⟩ := hex
      cases hfind : keys.find? (fun c0 => !usedCats.contains c0
          && decide (3 ≤ (searchPool filtered selected c0 (targetDifficulty round)).length)) with
      | none => exact absurd (hpred k hk hku) (List.find?_eq_none.mp hfind k hk)
      | some cat => exact ⟨cat, rfl⟩
    obtain ⟨cat, hfind⟩ := hfindsome
    have hfc : findCategoryForRound filtered selected usedCats keys (targetDifficulty round)
        = some cat := by
      unfold findCategoryForRound
      rw [hfind]
    have hcatmem : cat ∈ keys := List.mem_of_find?_eq_some hfind
    have hcatun : cat ∉ usedCats := by
      have hp := List.find?_some hfind
      simp only [Bool.and_eq_true, Bool.not_eq_true'] at hp
      exact not_mem_of_contains_eq_false hp.1
    have hcp : choosePool filtered selected cat (targetDifficulty round) =
        poolFor filtered cat (targetDifficulty round) := by
      obtain ⟨ds, hds⟩ := fallbackSelectOrder_head round
      unfold choosePool
      rw [hds, choosePoolAux, List.nil_append, havail cat hcatun (targetDifficulty round)]
      rw [if_pos (by rw [hpool cat hcatmem round])]
    set sc := fisherYates rng (choosePool filtered selected cat (targetDifficulty round)) c
      with hsc
    have hperm : sc.1.Perm (poolFor filtered cat (targetDifficulty round)) := by
      rw [hsc, hcp]
      exact fisherYates_perm rng _ c
    have hlen3 : sc.1.length = 3 := by
      rw [hperm.length_eq, hpool cat hcatmem round]
    have htake : sc.1.take 3 = sc.1 := List.take_of_length_le (by omega)
    have hstep : selectRoundsAux filtered keys rng (n + 1) round selected usedCats c =
        selectRoundsAux filtered keys rng n (round + 1) (selected ++ sc.1)
          (cat :: usedCats) sc.2 := by
      simp only [selectRoundsAux, hfc]
      rw [← hsc]
      rw [if_neg (by rw [htake, hlen3]; omega)]
      rw [htake]
    have hsel2 : ∀ q ∈ selected ++ sc.1, q ∈ filtered ∧ q.category ∈ cat :: usedCats := by
      intro q hq
      rcases List.mem_append.mp hq with h1 | h1
      · obtain ⟨hf, hc2⟩ := hsel q h1
        exact ⟨hf, List.mem_cons_of_mem _ hc2⟩
      · have h2 : q ∈ poolFor filtered cat (targetDifficulty round) := hperm.mem_iff.mp h1
        obtain ⟨hf, hcq, _⟩ := mem_poolFor h2
        exact ⟨hf, by rw [hcq]; exact List.mem_cons_self _ _⟩
    obtain ⟨rest2, c2, hok, hrl, hlvl⟩ :=
      ih (round + 1) (selected ++ sc.1) (cat :: usedCats) sc.2 (by omega) (by simp [hul]) hsel2
    refine ⟨sc.1 ++ rest2, c2, ?_, ?_, ?_⟩
    · rw [hstep, hok, List.append_assoc]
    · rw [List.length_append, hlen3, hrl]; omega
    · intro i hi q hq
      cases i with
      | zero =>
        rw [Nat.mul_zero, List.drop_zero] at hq
        have he : (sc.1 ++ rest2).take 3 = sc.1 := by rw [← hlen3, List.take_left]
        rw [he] at hq
        have h2 : q ∈ poolFor filtered cat (targetDifficulty round) := hperm.mem_iff.mp hq
        rw [Nat.add_zero]
        exact (mem_poolFor h2).2.2
      | succ i0 =>
        have e : 3 * (i0 + 1) = sc.1.length + 3 * i0 := by rw [hlen3]; omega
        rw [e, List.drop_append] at hq
        have hres := hlvl i0 (by omega) q hq
        have e2 : round + 1 + i0 = round + (i0 + 1) := by omega
        rw [← e2]
        exact hres

theorem getD_mem_of_lt {α : Type _} (l : List α) (i : ℕ) (d : α) (h : i < l.length) :
    l.getD i d ∈ l := by
  rw [List.getD_eq_getElem l d h]
  exact List.getElem_mem h

theorem blocks_flatten_length : ∀ {bs : List (String × List ArchiveQuestion)},
    (∀ p ∈ bs, p.2.length = 3) → (bs.map Prod.snd).flatten.length = 3 * bs.length
  | [], _ => rfl
  | p :: bs, h => by
    simp only [List.map_cons, List.flatten_cons, List.length_append, List.length_cons]
    rw [blocks_flatten_length (fun x hx => h x (List.mem_cons_of_mem _ hx)),
      h p (List.mem_cons_self _ _)]
    ring

theorem blocks_slice {bs : List (String × List ArchiveQuestion)}
    (h3 : ∀ p ∈ bs, p.2.length = 3) {i : ℕ} (hi : i < bs.length) :
    ((bs.map Prod.snd).flatten.drop (3 * i)).take 3 = (bs[i]).2 := by
  have hlen : i < (bs.map Prod.snd).length := by simpa using hi
  have hs := slice_flatten_of_blocks (bs.map Prod.snd)
    (fun b hb => by obtain ⟨p, hp, rfl⟩ := List.mem_map.mp hb; exact h3 p hp) i hlen
  rw [hs, List.getD_eq_getElem _ _ hlen, List.getElem_map]

theorem selectQuestions_ok_spec {client : Option Client} {rng : ℕ → ℕ}
    {archive : List ArchiveQuestion} {used : List String} {res : SelectResult}
    (h : selectQuestions client rng archive used = .ok res) :
    ∃ sel c2,
      selectRoundsAux (selFiltered client archive used)
        (fisherYates rng (objKeys ((selFiltered client archive used).map (·.category))) 0).1
        rng 8 0 [] []
        (fisherYates rng (objKeys ((selFiltered client archive used).map (·.category))) 0).2
        = .ok (sel, c2) ∧
      res.questions = sel ∧
      res.finalQuestion ∈ selFinals client archive used ∧
      res.usedQuestions =
        setAdd (sel.foldl (fun a q => setAdd a (questionId q)) used)
          (questionId res.finalQuestion) ∧
      ¬ (selFiltered client archive used).length < 24 := by
  simp only [selectQuestions] at h
  split_ifs at h with h24
  split at h
  next hfin => simp at h
  next f0 fs hfin =>
    split at h
    next e heq => simp at h
    next sc heq =>
      have hinj := Except.ok.inj h
      refine ⟨sc.1, sc.2, heq, ?_, ?_, ?_, h24⟩
      · exact (congrArg SelectResult.questions hinj).symm
      · have hf : res.finalQuestion =
            (f0 :: fs).getD (rng sc.2 % (f0 :: fs).length) f0 :=
          (congrArg SelectResult.finalQuestion hinj).symm
        rw [hf, hfin]
        exact getD_mem_of_lt _ _ _ (Nat.mod_lt _ (by simp))
      · have hu := (congrArg SelectResult.usedQuestions hinj).symm
        have hf : res.finalQuestion =
            (f0 :: fs).getD (rng sc.2 % (f0 :: fs).length) f0 :=
          (congrArg SelectResult.finalQuestion hinj).symm
        rw [hu, hf]

theorem selectQuestions_blocks {client : Option Client} {rng : ℕ → ℕ}
    {archive : List ArchiveQuestion} {used : List String} {res : SelectResult}
    (h : selectQuestions client rng archive used = .ok res) :
    ∃ bs : List (String × List ArchiveQuestion),
      res.questions = (bs.map Prod.snd).flatten ∧
      bs.length = 8 ∧
      BlocksSpec (selFiltered client archive used) [] [] bs ∧
      res.finalQuestion ∈ selFinals client archive used ∧
      res.usedQuestions =
        setAdd (res.questions.foldl (fun a q => setAdd a (questionId q)) used)
          (questionId res.finalQuestion) := by
  obtain ⟨sel, c2, haux, hq, hfin, hused, _⟩ := selectQuestions_ok_spec h
  obtain ⟨bs, hres, hlen, hspec⟩ := selectRoundsAux_spec _ _ _ _ _ _ _ _ _ _ haux
  rw [List.nil_append] at hres
  exact ⟨bs, by rw [hq, hres], hlen, hspec, hfin, by rw [hq.symm] at hused; exact hused⟩

theorem generateGameCore_ok {client : Option Client} {rng : ℕ → ℕ} {date : ℕ}
    {st st2 : GenState} {gid : String}
    (h : generateGameCore client rng date st = (st2, .ok gid)) :
    ∃ res, selectQuestions client rng st.archive st.usedFile = .ok res ∧
      gid = gameIdFor date ∧
      st2 = { st with games := putGame st.games date (assembleGame date res),
                      usedFile := res.usedQuestions } := by
  unfold generateGameCore at h
  split_ifs at h with he
  · exact absurd (congrArg Prod.snd h) (by simp)
  · split at h
    next e heq => exact absurd (congrArg Prod.snd h) (by simp)
    next res heq =>
      refine ⟨res, heq, ?_, ?_⟩
      · exact (Except.ok.inj (congrArg Prod.snd h)).symm
      · exact (congrArg Prod.fst h).symm

theorem filterQuestion_none_eq_some {q0 q : ArchiveQuestion}
    (h : filterQuestion none q0 = some q) :
    q = q0 ∧ (localDisqualify q0).shouldDisqualify = false := by
  simp only [filterQuestion, Option.map_none', shouldDisqualifyQuestion, rewriteQuestion,
    ite_self] at h
  split_ifs at h with hd
  exact ⟨(Option.some.inj h).symm, by simpa using hd⟩

theorem filterQuestion_none_of_eligible {q : ArchiveQuestion}
    (h : (localDisqualify q).shouldDisqualify = false) : filterQuestion none q = some q := by
  simp only [filterQuestion, Option.map_none', shouldDisqualifyQuestion, rewriteQuestion,
    ite_self, h]
  cases q
  simp

theorem mem_selFiltered_none {archive : List ArchiveQuestion} {used : List String}
    {q : ArchiveQuestion} (h : q ∈ selFiltered none archive used) :
    q ∈ archive ∧ used.contains (questionId q) = false ∧ q.round ≠ "Final Jeopardy" ∧
      (localDisqualify q).shouldDisqualify = false := by
  unfold selFiltered at h
  obtain ⟨q0, hq0, hfq⟩ := List.mem_filterMap.mp h
  obtain ⟨rfl, hd⟩ := filterQuestion_none_eq_some hfq
  obtain ⟨hmem, hpred⟩ := List.mem_filter.mp hq0
  simp only [Bool.and_eq_true, Bool.not_eq_true'] at hpred
  exact ⟨hmem, hpred.1, by simpa using hpred.2, hd⟩

theorem mem_selFinals_none {archive : List ArchiveQuestion} {used : List String}
    {q : ArchiveQuestion} (h : q ∈ selFinals none archive used) :
    q ∈ archive ∧ used.contains (questionId q) = false ∧ q.round = "Final Jeopardy" ∧
      (localDisqualify q).shouldDisqualify = false := by
  unfold selFinals at h
  obtain ⟨q0, hq0, hfq⟩ := List.mem_filterMap.mp h
  obtain ⟨rfl, hd⟩ := filterQuestion_none_eq_some hfq
  obtain ⟨hmem, hpred⟩ := List.mem_filter.mp hq0
  simp only [Bool.and_eq_true, Bool.not_eq_true'] at hpred
  exact ⟨hmem, hpred.1, by simpa using hpred.2, hd⟩

theorem anagram_free_of_not_disq {q : ArchiveQuestion}
    (h : (localDisqualify q).shouldDisqualify = false) :
    strIncludes (jsToLower q.category) "anagram" = false := by
  simp only [localDisqualify] at h
  split_ifs at h with h1 h2
  · cases hc : strIncludes (jsToLower q.category) "anagram"
    · rfl
    · exact absurd (by simp [hc]) h1
  · cases hc : strIncludes (jsToLower q.category) "anagram"
    · rfl
    · exact absurd (by simp [hc]) h1

/-! ### Claim-side property checkers -/

/-- The deduplication keys of every question pair appearing in the
emitted game: the 24 round questions followed by the final-trivia pair. -/
def gamePairs (g : Game) : List String :=
  (g.rounds.flatMap (fun r => r.questions)).map (fun q => q.clue ++ "|" ++ q.answer)
    ++ [g.finalTrivia.question ++ "|" ++ g.finalTrivia.answer]

/-- The freshly written game of a generation result: `putGame` places it
at the head of the games list. -/
def producedGame (r : GenState × Except String String) : Option Game :=
  match r.1.games with
  | [] => none
  | (_, g) :: _ => some g

def checkProduced (f : Game → Bool) (r : GenState × Except String String) : Bool :=
  match r.2 with
  | .error _ => false
  | .ok _ =>
    match producedGame r with
    | none => false
    | some g => f g

/-- All three questions of a round carry one category string. -/
def sameCategory (r : Round) : Bool :=
  match r.questions with
  | [] => false
  | q :: rest => rest.all (fun q2 => q2.category == q.category)

/-- Pairwise distinctness of a question field across different rounds. -/
def pairwiseRounds (f : GeneratedQuestion → String) : List Round → Bool
  | [] => true
  | r :: rs =>
    rs.all (fun r2 => r.questions.all (fun q1 =>
      r2.questions.all (fun q2 => f q1 != f q2)))
    && pairwiseRounds f rs

/-- No two rounds share a question category. -/
def roundsCatDistinct : List Round → Bool :=
  pairwiseRounds (fun q => q.category)

/-- No clue text of one round recurs in a different round. -/
def roundsClueDistinct : List Round → Bool :=
  pairwiseRounds (fun q => q.clue)

/-- Claim C1's shape: 8 rounds, 3 questions each, one category per
round, no category in two rounds. -/
def gameShapeOk (g : Game) : Bool :=
  g.rounds.length == 8
  && g.rounds.all (fun r => r.questions.length == 3 && sameCategory r)
  && roundsCatDistinct g.rounds

/-- Claim C6's property: no question (round or final) from a category
containing "anagram" case-insensitively. -/
def anagramFree (g : Game) : Bool :=
  g.rounds.all (fun r => r.questions.all (fun q =>
    !(strIncludes (jsToLower q.category) "anagram")))
  && !(strIncludes (jsToLower g.finalTrivia.category) "anagram")

/-- Claim C2's ledger property relative to the ledger `before`
generation: every pair of the game is absent before and present in the
state after, and the after-ledger extends the before-ledger. -/
def ledgerCheck (before : List String) (r : GenState × Except String String) : Bool :=
  match r.2 with
  | .error _ => false
  | .ok _ =>
    match producedGame r with
    | none => false
    | some g =>
      (gamePairs g).all (fun p => !(before.contains p) && r.1.usedFile.contains p)
      && before.all (fun x => r.1.usedFile.contains x)

theorem pairwiseRounds_of_pairwise (f : GeneratedQuestion → String) :
    ∀ {rs : List Round},
      rs.Pairwise (fun r1 r2 => ∀ q1 ∈ r1.questions, ∀ q2 ∈ r2.questions, f q1 ≠ f q2) →
      pairwiseRounds f rs = true
  | [], _ => rfl
  | r :: rs, h => by
    rw [List.pairwise_cons] at h
    rw [pairwiseRounds, Bool.and_eq_true]
    refine ⟨?_, pairwiseRounds_of_pairwise f h.2⟩
    rw [List.all_eq_true]
    intro r2 hr2
    rw [List.all_eq_true]
    intro q1 hq1
    rw [List.all_eq_true]
    intro q2 hq2
    simpa using h.1 r2 hr2 q1 hq1 q2 hq2

theorem buildRounds_length (qs : List ArchiveQuestion) : (buildRounds qs).length = 8 := by
  simp [buildRounds]

theorem buildRounds_getElem {qs : List ArchiveQuestion} {i : ℕ}
    (hib : i < (buildRounds qs).length) :
    (buildRounds qs)[i] = buildRound qs i := by
  have hi : i < 8 := by rw [buildRounds_length] at hib; exact hib
  unfold buildRounds
  rw [List.getElem_map]
  congr 1
  exact List.getElem_range i (by simpa using hi)

theorem mem_buildRounds {qs : List ArchiveQuestion} {r : Round} (h : r ∈ buildRounds qs) :
    ∃ i, i < 8 ∧ r = buildRound qs i := by
  unfold buildRounds at h
  obtain ⟨i, hi, he⟩ := List.mem_map.mp h
  exact ⟨i, List.mem_range.mp hi, he.symm⟩

theorem buildRound_questions_block {bs : List (String × List ArchiveQuestion)}
    (h3 : ∀ p ∈ bs, p.2.length = 3) {i : ℕ} (hib : i < bs.length) :
    (buildRound ((bs.map Prod.snd).flatten) i).questions
      = ((bs[i]).2).map projectQ := by
  show (((bs.map Prod.snd).flatten.drop (i * 3)).take 3).map projectQ = _
  rw [Nat.mul_comm i 3, blocks_slice h3 hib]

theorem sameCategory_of_all (c : String) {r : Round}
    (hne : r.questions ≠ []) (hall : ∀ q ∈ r.questions, q.category = c) :
    sameCategory r = true := by
  unfold sameCategory
  rcases hqs : r.questions with _ | ⟨q0, rest⟩
  · exact absurd hqs hne
  · show (rest.all fun q2 => q2.category == q0.category) = true
    rw [List.all_eq_true]
    intro q2 hq2
    have e1 := hall q2 (by rw [hqs]; exact List.mem_cons_of_mem _ hq2)
    have e2 := hall q0 (by rw [hqs]; exact List.mem_cons_self _ _)
    show (q2.category == q0.category) = true
    rw [e1, e2]
    simp

theorem produced_game_blocks {client : Option Client} {rng : ℕ → ℕ} {date : ℕ}
    {st st2 : GenState} {gid : String}
    (h : generateGameCore client rng date st = (st2, .ok gid)) :
    ∃ res bs, selectQuestions client rng st.archive st.usedFile = .ok res ∧
      st2.games = (date, assembleGame date res) :: st.games.filter (fun p => p.1 != date) ∧
      st2.usedFile = res.usedQuestions ∧
      res.questions = (bs.map Prod.snd).flatten ∧
      bs.length = 8 ∧
      BlocksSpec (selFiltered client st.archive st.usedFile) [] [] bs ∧
      res.finalQuestion ∈ selFinals client st.archive st.usedFile ∧
      res.usedQuestions =
        setAdd (res.questions.foldl (fun a q => setAdd a (questionId q)) st.usedFile)
          (questionId res.finalQuestion) := by
  obtain ⟨res, hsel, hgid, hst2⟩ := generateGameCore_ok h
  obtain ⟨bs, hq, h8, hspec, hfin, hused⟩ := selectQuestions_blocks hsel
  exact ⟨res, bs, hsel, by rw [hst2]; rfl, by rw [hst2], hq, h8, hspec, hfin, hused⟩

/-- C1: every game emitted by a successful run of the generation body
has exactly 8 rounds, each of exactly 3 questions sharing one category
string, and no category string appears in two distinct rounds. -/
theorem C1_generated_game_shape (client : Option Client) (rng : ℕ → ℕ) (date : ℕ)
    (st st2 : GenState) (gid : String)
    (h : generateGameCore client rng date st = (st2, .ok gid)) :
    checkProduced gameShapeOk (generateGameCore client rng date st) = true := by
  rw [h]
  obtain ⟨res, bs, hsel, hgames, husedf, hq, h8, ⟨hspec1, hspec2, hspec3⟩, hfin, hused⟩ :=
    produced_game_blocks h
  have h3 : ∀ p ∈ bs, p.2.length = 3 := fun p hp => (hspec1 p hp).2.1
  simp only [checkProduced, producedGame, hgames]
  unfold gameShapeOk
  rw [Bool.and_eq_true, Bool.and_eq_true]
  refine ⟨⟨by simp [assembleGame, buildRounds_length], ?_⟩, ?_⟩
  · rw [List.all_eq_true]
    intro r hr
    obtain ⟨i, hi, rfl⟩ := mem_buildRounds (by simpa [assembleGame] using hr)
    have hib : i < bs.length := by omega
    rw [hq, Bool.and_eq_true]
    rw [buildRound_questions_block h3 hib]
    have hcats : ∀ a ∈ (bs[i]).2, a.category = (bs[i]).1 :=
      fun a ha => ((hspec1 (bs[i]) (List.getElem_mem hib)).2.2 a ha).2.1
    constructor
    · simp [h3 (bs[i]) (List.getElem_mem hib)]
    · apply sameCategory_of_all ((bs[i]).1)
      · have hlq : (buildRound ((bs.map Prod.snd).flatten) i).questions.length = 3 := by
          rw [buildRound_questions_block h3 hib]
          simp [h3 (bs[i]) (List.getElem_mem hib)]
        intro hnil
        rw [hnil] at hlq
        simp at hlq
      · intro q hql
        rw [buildRound_questions_block h3 hib] at hql
        obtain ⟨a, ha, rfl⟩ := List.mem_map.mp hql
        exact hcats a ha
  · show roundsCatDistinct (assembleGame date res).rounds = true
    apply pairwiseRounds_of_pairwise
    rw [List.pairwise_iff_getElem]
    intro i j hi hj hij q1 hq1 q2 hq2
    have hlen := buildRounds_length res.questions
    have hi8 : i < 8 := by simpa [assembleGame, buildRounds_length] using hi
    have hj8 : j < 8 := by simpa [assembleGame, buildRounds_length] using hj
    have hib : i < bs.length := by omega
    have hjb : j < bs.length := by omega
    have hri : (assembleGame date res).rounds[i] = buildRound res.questions i := by
      show (buildRounds res.questions)[i] = _
      exact buildRounds_getElem (by rw [buildRounds_length]; omega)
    have hrj : (assembleGame date res).rounds[j] = buildRound res.questions j := by
      show (buildRounds res.questions)[j] = _
      exact buildRounds_getElem (by rw [buildRounds_length]; omega)
    rw [hri] at hq1
    rw [hrj] at hq2
    rw [hq, buildRound_questions_block h3 hib] at hq1
    rw [hq, buildRound_questions_block h3 hjb] at hq2
    obtain ⟨a1, ha1, rfl⟩ := List.mem_map.mp hq1
    obtain ⟨a2, ha2, rfl⟩ := List.mem_map.mp hq2
    show a1.category ≠ a2.category
    have e1 : a1.category = (bs[i]).1 :=
      ((hspec1 (bs[i]) (List.getElem_mem hib)).2.2 a1 ha1).2.1
    have e2 : a2.category = (bs[j]).1 :=
      ((hspec1 (bs[j]) (List.getElem_mem hjb)).2.2 a2 ha2).2.1
    rw [e1, e2]
    have hnd := hspec2
    rw [List.Nodup, List.pairwise_iff_getElem] at hnd
    have := hnd i j (by simpa using hib) (by simpa using hjb) hij
    simpa using this

/-- C10: within one generated game, no clue text selected for an earlier
round recurs in a later round — the in-generation duplicate guard
compares clue text across all previously selected questions. -/
theorem C10_no_clue_reuse (client : Option Client) (rng : ℕ → ℕ) (date : ℕ)
    (st st2 : GenState) (gid : String)
    (h : generateGameCore client rng date st = (st2, .ok gid)) :
    checkProduced (fun g => roundsClueDistinct g.rounds)
      (generateGameCore client rng date st) = true := by
  rw [h]
  obtain ⟨res, bs, hsel, hgames, husedf, hq, h8, ⟨hspec1, hspec2, hspec3⟩, hfin, hused⟩ :=
    produced_game_blocks h
  have h3 : ∀ p ∈ bs, p.2.length = 3 := fun p hp => (hspec1 p hp).2.1
  simp only [checkProduced, producedGame, hgames]
  show roundsClueDistinct (assembleGame date res).rounds = true
  apply pairwiseRounds_of_pairwise
  rw [List.pairwise_iff_getElem]
  intro i j hi hj hij q1 hq1 q2 hq2
  have hi8 : i < 8 := by simpa [assembleGame, buildRounds_length] using hi
  have hj8 : j < 8 := by simpa [assembleGame, buildRounds_length] using hj
  have hib : i < bs.length := by omega
  have hjb : j < bs.length := by omega
  have hri : (assembleGame date res).rounds[i] = buildRound res.questions i := by
    show (buildRounds res.questions)[i] = _
    exact buildRounds_getElem (by rw [buildRounds_length]; omega)
  have hrj : (assembleGame date res).rounds[j] = buildRound res.questions j := by
    show (buildRounds res.questions)[j] = _
    exact buildRounds_getElem (by rw [buildRounds_length]; omega)
  rw [hri] at hq1
  rw [hrj] at hq2
  rw [hq, buildRound_questions_block h3 hib] at hq1
  rw [hq, buildRound_questions_block h3 hjb] at hq2
  obtain ⟨a1, ha1, rfl⟩ := List.mem_map.mp hq1
  obtain ⟨a2, ha2, rfl⟩ := List.mem_map.mp hq2
  show a1.clue ≠ a2.clue
  rw [List.pairwise_iff_getElem] at hspec3
  exact hspec3 i j hib hjb hij a1 ha1 a2 ha2

theorem contains_eq_true_of_mem {l : List String} {x : String} (h : x ∈ l) :
    l.contains x = true := by
  simpa [List.contains, List.elem_iff] using h

theorem game_round_questions_flat {res : SelectResult} {date : ℕ}
    (h24 : res.questions.length = 24) :
    (assembleGame date res).rounds.flatMap (fun r => r.questions)
      = res.questions.map projectQ := by
  show (buildRounds res.questions).flatMap (fun r => r.questions) = _
  unfold buildRounds
  rw [List.flatMap_map]
  have he : ((List.range 8).flatMap fun i => (buildRound res.questions i).questions)
      = (List.range 8).flatMap fun i =>
          ((res.questions.drop (3 * i)).take 3).map projectQ := by
    congr 1
    funext i
    show ((res.questions.drop (i * 3)).take 3).map projectQ = _
    rw [Nat.mul_comm]
  rw [he, range_flatMap_slices]
  show (res.questions.take (3 * 8)).map projectQ = _
  have h2 : (3 : ℕ) * 8 = res.questions.length := by omega
  rw [h2, List.take_length]

theorem mem_selFiltered_of_blocks {filtered : List ArchiveQuestion}
    {bs : List (String × List ArchiveQuestion)}
    (hspec1 : ∀ p ∈ bs, p.1 ∉ ([] : List String) ∧ p.2.length = 3 ∧
      ∀ q ∈ p.2, q ∈ filtered ∧ q.category = p.1 ∧
        ∀ sq ∈ ([] : List ArchiveQuestion), sq.clue ≠ q.clue)
    {q : ArchiveQuestion} (hq : q ∈ (bs.map Prod.snd).flatten) : q ∈ filtered := by
  obtain ⟨b, hb, hqb⟩ := List.mem_flatten.mp hq
  obtain ⟨p, hp, rfl⟩ := List.mem_map.mp hb
  exact ((hspec1 p hp).2.2 q hqb).1

/-- C2 (amended): on the local path (no classifier/rewriter client),
every (clue, answer) pair of the emitted game is absent from the ledger
loaded before generation and present in the ledger persisted after, and
the persisted ledger extends the prior one. -/
theorem C2_ledger_consistency (rng : ℕ → ℕ) (date : ℕ) (st st2 : GenState) (gid : String)
    (h : generateGameCore none rng date st = (st2, .ok gid)) :
    ledgerCheck st.usedFile (generateGameCore none rng date st) = true := by
  rw [h]
  obtain ⟨res, bs, hsel, hgames, husedf, hq, h8, ⟨hspec1, hspec2, hspec3⟩, hfin, hused⟩ :=
    produced_game_blocks h
  have h3 : ∀ p ∈ bs, p.2.length = 3 := fun p hp => (hspec1 p hp).2.1
  have h24 : res.questions.length = 24 := by
    rw [hq, blocks_flatten_length h3, h8]
  simp only [ledgerCheck, producedGame, hgames]
  rw [Bool.and_eq_true]
  constructor
  · rw [List.all_eq_true]
    intro p hp
    unfold gamePairs at hp
    rw [game_round_questions_flat h24, List.map_map] at hp
    rcases List.mem_append.mp hp with h1 | h1
    · obtain ⟨q, hqm, rfl⟩ := List.mem_map.mp h1
      have hqf : q ∈ selFiltered none st.archive st.usedFile :=
        mem_selFiltered_of_blocks hspec1 (hq ▸ hqm)
      have habs := (mem_selFiltered_none hqf).2.1
      have hpres : questionId q ∈ st2.usedFile := by
        rw [husedf, hused]
        exact mem_setAdd_of_mem (questionId_mem_foldl res.questions st.usedFile q hqm)
      rw [Bool.and_eq_true]
      constructor
      · show (!(st.usedFile.contains ((projectQ q).clue ++ "|" ++ (projectQ q).answer))) = true
        show (!(st.usedFile.contains (questionId q))) = true
        rw [habs]
        rfl
      · show st2.usedFile.contains ((projectQ q).clue ++ "|" ++ (projectQ q).answer) = true
        exact contains_eq_true_of_mem hpres
    · have hpf : p = questionId res.finalQuestion := by simpa [assembleGame, questionId] using h1
      subst hpf
      have habs := (mem_selFinals_none hfin).2.1
      have hpres : questionId res.finalQuestion ∈ st2.usedFile := by
        rw [husedf, hused]
        exact mem_setAdd_self _ _
      rw [Bool.and_eq_true]
      exact ⟨by rw [habs]; rfl, contains_eq_true_of_mem hpres⟩
  · rw [List.all_eq_true]
    intro x hx
    have : x ∈ st2.usedFile := by
      rw [husedf, hused]
      exact mem_setAdd_of_mem (subset_foldl_setAdd res.questions st.usedFile hx)
    exact contains_eq_true_of_mem this

/-- C6: on the local-heuristic path, no question of the emitted game —
round question or final trivia — has a category containing "anagram"
case-insensitively. -/
theorem C6_no_anagram_category (rng : ℕ → ℕ) (date : ℕ) (st st2 : GenState) (gid : String)
    (h : generateGameCore none rng date st = (st2, .ok gid)) :
    checkProduced anagramFree (generateGameCore none rng date st) = true := by
  rw [h]
  obtain ⟨res, bs, hsel, hgames, husedf, hq, h8, ⟨hspec1, hspec2, hspec3⟩, hfin, hused⟩ :=
    produced_game_blocks h
  have h3 : ∀ p ∈ bs, p.2.length = 3 := fun p hp => (hspec1 p hp).2.1
  simp only [checkProduced, producedGame, hgames]
  unfold anagramFree
  rw [Bool.and_eq_true]
  constructor
  · rw [List.all_eq_true]
    intro r hr
    rw [List.all_eq_true]
    intro q hql
    obtain ⟨i, hi, rfl⟩ := mem_buildRounds (by simpa [assembleGame] using hr)
    have hib : i < bs.length := by omega
    rw [hq, buildRound_questions_block h3 hib] at hql
    obtain ⟨a, ha, rfl⟩ := List.mem_map.mp hql
    have haf : a ∈ selFiltered none st.archive st.usedFile :=
      ((hspec1 _ (List.getElem_mem hib)).2.2 a ha).1
    have hnd := (mem_selFiltered_none haf).2.2.2
    show (!(strIncludes (jsToLower a.category) "anagram")) = true
    rw [anagram_free_of_not_disq hnd]
    rfl
  · have hnd := (mem_selFinals_none hfin).2.2.2
    show (!(strIncludes (jsToLower res.finalQuestion.category) "anagram")) = true
    rw [anagram_free_of_not_disq hnd]
    rfl

/-- Claim C7's property relative to the flat selection: each emitted
round's difficulty label is the tier of the arithmetic mean of its three
member clues' recomputed scores, and its questions are exactly the
{clue, answer, category} projections of those clues. -/
def roundsDerivedOk (sel : List ArchiveQuestion) (g : Game) : Bool :=
  sel.length == 24 && g.rounds.length == 8 &&
  (List.range 8).all (fun i =>
    match g.rounds[i]? with
    | none => false
    | some r =>
      (r.difficulty == getDifficultyLevel
        ((((sel.drop (i * 3)).take 3).map calculateDifficulty).sum / 3))
      && r.questions == ((sel.drop (i * 3)).take 3).map projectQ)

/-- C7: the emitted rounds are derived from the selected clues by
projection and mean-score re-bucketing. -/
theorem C7_round_assembly (client : Option Client) (rng : ℕ → ℕ)
    (archive : List ArchiveQuestion) (used : List String) (res : SelectResult) (date : ℕ)
    (h : selectQuestions client rng archive used = .ok res) :
    roundsDerivedOk res.questions (assembleGame date res) = true := by
  obtain ⟨bs, hq, h8, ⟨hspec1, hspec2, hspec3⟩, hfin, hused⟩ := selectQuestions_blocks h
  have h3 : ∀ p ∈ bs, p.2.length = 3 := fun p hp => (hspec1 p hp).2.1
  have h24 : res.questions.length = 24 := by
    rw [hq, blocks_flatten_length h3, h8]
  unfold roundsDerivedOk
  rw [Bool.and_eq_true, Bool.and_eq_true]
  refine ⟨⟨by simp [h24], by simp [assembleGame, buildRounds_length]⟩, ?_⟩
  rw [List.all_eq_true]
  intro i hi
  have hi8 : i < 8 := List.mem_range.mp hi
  have hrr : (assembleGame date res).rounds[i]? = some (buildRound res.questions i) := by
    show (buildRounds res.questions)[i]? = _
    rw [List.getElem?_eq_getElem (by rw [buildRounds_length]; omega)]
    rw [buildRounds_getElem]
  rw [hrr]
  have hsl : ((res.questions.drop (i * 3)).take 3).length = 3 := by
    rw [List.length_take, List.length_drop, h24]
    omega
  have hcast : ((((res.questions.drop (i * 3)).take 3).map calculateDifficulty).length : ℚ)
      = 3 := by
    rw [List.length_map, hsl]
    norm_num
  show ((buildRound res.questions i).difficulty == _
    && (buildRound res.questions i).questions == _) = true
  rw [Bool.and_eq_true]
  constructor
  · show (getDifficultyLevel
        ((((res.questions.drop (i * 3)).take 3).map calculateDifficulty).sum
          / (((res.questions.drop (i * 3)).take 3).length : ℚ)) == _) = true
    rw [show ((((res.questions.drop (i * 3)).take 3).length : ℕ) : ℚ) = 3 by rw [hsl]; norm_num]
    simp
  · simp [buildRound]

/-- C3: when a run reaches question selection (requested date free,
archive non-empty) and the filtered pool holds fewer than 24 questions,
generation fails, the error message identifies "not enough available
questions", and the state — games directory and ledger alike — is
returned unchanged. -/
theorem C3_insufficient_pool (client : Option Client) (rng : ℕ → ℕ) (today d : ℕ)
    (st : GenState) (hfree : hasGameFile st d = false) (hne : st.archive ≠ [])
    (h24 : (selFiltered client st.archive st.usedFile).length < 24) :
    generateGame client rng today (some d) st =
      (st, .error ("Not enough available questions. Need 24, have "
        ++ toString (selFiltered client st.archive st.usedFile).length)) ∧
    mentionsNotEnough ("Not enough available questions. Need 24, have "
      ++ toString (selFiltered client st.archive st.usedFile).length) = true := by
  refine ⟨?_, mentionsNotEnough_msg _⟩
  have hsel : selectQuestions client rng st.archive st.usedFile =
      .error ("Not enough available questions. Need 24, have "
        ++ toString (selFiltered client st.archive st.usedFile).length) := by
    simp only [selectQuestions]
    rw [if_pos h24]
  have hline : ¬ ((st.archive.length == 0) = true) := by
    simp only [beq_iff_eq, List.length_eq_zero]
    exact hne
  unfold generateGame
  show (if hasGameFile st d = true then (st, Except.ok (gameIdFor d))
    else generateGameCore client rng d st) = _
  rw [if_neg (by rw [hfree]; exact Bool.false_ne_true)]
  unfold generateGameCore
  rw [if_neg hline, hsel]

/-- C4: the difficulty scorer clamps every score into [0, 100]; on its
originating value ranges it maps Jeopardy values linearly into 0–20 and
Double Jeopardy values linearly into 20–60; Final Jeopardy clues score a
fixed 80; and the tier thresholds are exactly <10 easy, <30 medium,
<50 hard, else expert. -/
theorem C4_difficulty_scorer :
    (∀ q : ArchiveQuestion, 0 ≤ calculateDifficulty q ∧ calculateDifficulty q ≤ 100) ∧
    (∀ q : ArchiveQuestion, q.round = "Jeopardy" → 200 ≤ q.value → q.value ≤ 1000 →
      calculateDifficulty q = ((q.value : ℚ) - 200) / 800 * 20 ∧
      0 ≤ calculateDifficulty q ∧ calculateDifficulty q ≤ 20) ∧
    (∀ q : ArchiveQuestion, q.round = "Double Jeopardy" → 400 ≤ q.value → q.value ≤ 2000 →
      calculateDifficulty q = 20 + ((q.value : ℚ) - 400) / 1600 * 40 ∧
      20 ≤ calculateDifficulty q ∧ calculateDifficulty q ≤ 60) ∧
    (∀ q : ArchiveQuestion, q.round = "Final Jeopardy" → calculateDifficulty q = 80) ∧
    (∀ s : ℚ, (getDifficultyLevel s = "easy" ↔ s < 10) ∧
      (getDifficultyLevel s = "medium" ↔ 10 ≤ s ∧ s < 30) ∧
      (getDifficultyLevel s = "hard" ↔ 30 ≤ s ∧ s < 50) ∧
      (getDifficultyLevel s = "expert" ↔ 50 ≤ s)) := by
  refine ⟨fun q => ⟨calculateDifficulty_nonneg q, calculateDifficulty_le q⟩, ?_, ?_, ?_, ?_⟩
  · intro q h1 h2 h3
    have hv2 : (200 : ℚ) ≤ (q.value : ℚ) := by exact_mod_cast h2
    have hv3 : ((q.value : ℚ)) ≤ 1000 := by exact_mod_cast h3
    have hge : 0 ≤ ((q.value : ℚ) - 200) / 800 * 20 := by linarith
    have hle : ((q.value : ℚ) - 200) / 800 * 20 ≤ 20 := by linarith
    have hcalc : calculateDifficulty q = ((q.value : ℚ) - 200) / 800 * 20 := by
      simp only [calculateDifficulty]
      rw [if_pos h1, ratMin_eq, ratMax_eq, min_eq_right (by linarith), max_eq_right hge]
    exact ⟨hcalc, by rw [hcalc]; exact hge, by rw [hcalc]; exact hle⟩
  · intro q h1 h2 h3
    have hv2 : (400 : ℚ) ≤ (q.value : ℚ) := by exact_mod_cast h2
    have hv3 : ((q.value : ℚ)) ≤ 2000 := by exact_mod_cast h3
    have hge : (20 : ℚ) ≤ 20 + ((q.value : ℚ) - 400) / 1600 * 40 := by linarith
    have hle : 20 + ((q.value : ℚ) - 400) / 1600 * 40 ≤ 60 := by linarith
    have hcalc : calculateDifficulty q = 20 + ((q.value : ℚ) - 400) / 1600 * 40 := by
      simp only [calculateDifficulty]
      rw [if_neg (by rw [h1]; decide), if_pos h1, ratMin_eq, ratMax_eq,
        min_eq_right (by linarith), max_eq_right (by linarith)]
    exact ⟨hcalc, by rw [hcalc]; exact hge, by rw [hcalc]; exact hle⟩
  · intro q h1
    simp only [calculateDifficulty]
    rw [if_neg (by rw [h1]; decide), if_neg (by rw [h1]; decide), if_pos h1,
      ratMin_eq, ratMax_eq]
    norm_num
  · intro s
    exact ⟨getDifficultyLevel_easy_iff, getDifficultyLevel_medium_iff,
      getDifficultyLevel_hard_iff, getDifficultyLevel_expert_iff⟩

/-- C8: an erroring classifier call yields a non-disqualifying result,
an erroring rewriter call yields the original clue text, and a question
whose classifier and rewriter calls both error passes the filter
unchanged — generation continues in every case. -/
theorem C8_fail_open :
    (∀ (f : ArchiveQuestion → Except String DisqResult) (q : ArchiveQuestion) (e : String),
      f q = .error e → shouldDisqualifyQuestion (some f) q = ⟨false, none⟩) ∧
    (∀ (g : ArchiveQuestion → Except String String) (q : ArchiveQuestion) (e : String),
      g q = .error e → rewriteQuestion (some g) q = q.clue) ∧
    (∀ (cl : Client) (q : ArchiveQuestion) (ec er : String),
      cl.classify q = .error ec → cl.rewrite q = .error er →
      filterQuestion (some cl) q = some q) := by
  refine ⟨?_, ?_, ?_⟩
  · intro f q e hf
    show (match f q with
      | Except.ok r => r
      | Except.error _ => ({ shouldDisqualify := false, reason := none } : DisqResult))
      = ({ shouldDisqualify := false, reason := none } : DisqResult)
    rw [hf]
  · intro g q e hg
    show (match g q with
      | Except.ok s => s
      | Except.error _ => q.clue) = q.clue
    rw [hg]
  · intro cl q ec er hc hr
    simp only [filterQuestion, shouldDisqualifyQuestion, rewriteQuestion, Option.map_some']
    rw [hc, hr]
    simp only [ite_self]
    rfl

/-- C9: requesting a date that already has a persisted game is an
idempotent no-op — the existing identifier is returned and the state
(games directory and used-questions ledger) is exactly the input state. -/
theorem C9_existing_date_noop (client : Option Client) (rng : ℕ → ℕ) (today d : ℕ)
    (st : GenState) (h : hasGameFile st d = true) :
    generateGame client rng today (some d) st = (st, .ok (gameIdFor d)) := by
  unfold generateGame
  show (if hasGameFile st d = true then (st, Except.ok (gameIdFor d))
    else generateGameCore client rng d st) = _
  rw [if_pos h]

theorem filterMap_filterQuestion_none :
    ∀ {l : List ArchiveQuestion},
      (∀ q ∈ l, (localDisqualify q).shouldDisqualify = false) →
      l.filterMap (filterQuestion none) = l
  | [], _ => rfl
  | q :: qs, h => by
    rw [List.filterMap_cons, filterQuestion_none_of_eligible (h q (List.mem_cons_self _ _))]
    rw [filterMap_filterQuestion_none (fun x hx => h x (List.mem_cons_of_mem _ hx))]

theorem list3_cases {α : Type _} {l : List α} (h : l.length = 3) :
    ∃ a b c, l = [a, b, c] := by
  rcases l with _ | ⟨a, l⟩
  · simp at h
  rcases l with _ | ⟨b, l⟩
  · simp at h
  rcases l with _ | ⟨c, l⟩
  · simp at h
  have h0 : l.length = 0 := by simpa using h
  exact ⟨a, b, c, by rw [List.length_eq_zero.mp h0]⟩

theorem sum3_div_lt {l : List ℚ} (h : l.length = 3) (hub : ∀ x ∈ l, x < 10) :
    l.sum / (3 : ℚ) < 10 := by
  obtain ⟨a, b, c, rfl⟩ := list3_cases h
  have ha := hub a (by simp)
  have hb := hub b (by simp)
  have hc := hub c (by simp)
  simp only [List.sum_cons, List.sum_nil]
  linarith

theorem sum3_div_ge {l : List ℚ} (h : l.length = 3) (hlb : ∀ x ∈ l, 50 ≤ x) :
    50 ≤ l.sum / (3 : ℚ) := by
  obtain ⟨a, b, c, rfl⟩ := list3_cases h
  have ha := hlb a (by simp)
  have hb := hlb b (by simp)
  have hc := hlb c (by simp)
  simp only [List.sum_cons, List.sum_nil]
  linarith

/-- Claim C5's observable outcome: generation succeeded, and the written
game's first round is labelled "easy" and its eighth round "expert". -/
def c5Check (r : GenState × Except String String) : Bool :=
  match r.2 with
  | .error _ => false
  | .ok _ =>
    match producedGame r with
    | none => false
    | some g =>
      (match g.rounds[0]? with
       | some r1 => r1.difficulty == "easy"
       | none => false)
      && (match g.rounds[7]? with
          | some r8 => r8.difficulty == "expert"
          | none => false)

theorem buildRound_difficulty_eq {qs : List ArchiveQuestion} {i : ℕ} {lbl : String}
    (hsl : ((qs.drop (i * 3)).take 3).length = 3)
    (hlbl : getDifficultyLevel
      ((((qs.drop (i * 3)).take 3).map calculateDifficulty).sum / (3 : ℚ)) = lbl) :
    (buildRound qs i).difficulty = lbl := by
  show getDifficultyLevel
    ((((qs.drop (i * 3)).take 3).map calculateDifficulty).sum
      / ((((qs.drop (i * 3)).take 3).length : ℕ) : ℚ)) = lbl
  rw [hsl]
  have hc : (((3 : ℕ) : ℚ)) = (3 : ℚ) := by norm_num
  rw [hc]
  exact hlbl

/-- C5 (amended): with the scenario archive — 8 distinct categories,
each holding exactly 3 clues of every tier among 96 non-final clues, all
eligible, distinct clue texts, nothing used — *plus* at least one
eligible Final Jeopardy clue (which the source additionally requires),
generation on the local path succeeds for every shuffle outcome, with
round 1 labelled "easy" and round 8 "expert". -/
theorem C5_scenario_amended (rng : ℕ → ℕ) (today d : ℕ) (st : GenState)
    (hfree : hasGameFile st d = false)
    (hused : st.usedFile = [])
    (helig : ∀ q ∈ st.archive, (localDisqualify q).shouldDisqualify = false)
    (hclue : ((st.archive.filter (fun q => q.round != "Final Jeopardy")).map
      (fun q => q.clue)).Nodup)
    (hkeys8 : (objKeys ((st.archive.filter (fun q => q.round != "Final Jeopardy")).map
      (·.category))).length = 8)
    (hpool4 : ∀ cat ∈ objKeys ((st.archive.filter (fun q => q.round != "Final Jeopardy")).map
      (·.category)),
      ∀ lvl ∈ (["easy", "medium", "hard", "expert"] : List String),
        (poolFor (st.archive.filter (fun q => q.round != "Final Jeopardy")) cat lvl).length = 3)
    (h96 : (st.archive.filter (fun q => q.round != "Final Jeopardy")).length = 96)
    (hfin : ∃ q ∈ st.archive, q.round = "Final Jeopardy") :
    c5Check (generateGame none rng today (some d) st) = true := by
  have hfiltered : selFiltered none st.archive st.usedFile =
      st.archive.filter (fun q => q.round != "Final Jeopardy") := by
    unfold selFiltered
    rw [List.filter_congr (fun q hq => by rw [hused])]
    exact filterMap_filterQuestion_none (fun q hq => helig q (List.mem_filter.mp hq).1)
  have hfinalsne : selFinals none st.archive st.usedFile ≠ [] := by
    obtain ⟨q, hq, hqr⟩ := hfin
    have hmem : q ∈ selFinals none st.archive st.usedFile := by
      unfold selFinals
      apply List.mem_filterMap.mpr
      refine ⟨q, ?_, filterQuestion_none_of_eligible (helig q hq)⟩
      apply List.mem_filter.mpr
      refine ⟨hq, ?_⟩
      rw [hused, hqr]
      rfl
    intro hnil
    rw [hnil] at hmem
    simp at hmem
  rcases hfx : selFinals none st.archive st.usedFile with _ | ⟨f0, fs⟩
  · exact absurd hfx hfinalsne
  have hknd : ((fisherYates rng (objKeys ((st.archive.filter
      (fun q => q.round != "Final Jeopardy")).map (·.category))) 0).1).Nodup :=
    (fisherYates_perm rng _ 0).nodup_iff.mpr (objKeys_nodup _)
  have hklen : ((fisherYates rng (objKeys ((st.archive.filter
      (fun q => q.round != "Final Jeopardy")).map (·.category))) 0).1).length = 8 := by
    rw [(fisherYates_perm rng _ 0).length_eq]
    exact hkeys8
  have hpool : ∀ cat ∈ (fisherYates rng (objKeys ((st.archive.filter
      (fun q => q.round != "Final Jeopardy")).map (·.category))) 0).1, ∀ r : ℕ,
      (poolFor (st.archive.filter (fun q => q.round != "Final Jeopardy")) cat
        (targetDifficulty r)).length = 3 := by
    intro cat hcat r
    exact hpool4 cat ((fisherYates_perm rng _ 0).mem_iff.mp hcat) _ (targetDifficulty_mem r)
  obtain ⟨rest, c2, hok, hrl, hlvl⟩ := selectRoundsAux_scenario
    (st.archive.filter (fun q => q.round != "Final Jeopardy"))
    ((fisherYates rng (objKeys ((st.archive.filter
      (fun q => q.round != "Final Jeopardy")).map (·.category))) 0).1)
    rng hknd hklen hclue hpool 8 0 [] []
    ((fisherYates rng (objKeys ((st.archive.filter
      (fun q => q.round != "Final Jeopardy")).map (·.category))) 0).2)
    rfl rfl (by simp)
  have hselq : selectQuestions none rng st.archive st.usedFile =
      .ok ⟨[] ++ rest,
        (f0 :: fs).getD (rng c2 % (f0 :: fs).length) f0,
        setAdd ((([] : List ArchiveQuestion) ++ rest).foldl
            (fun a q => setAdd a (questionId q)) st.usedFile)
          (questionId ((f0 :: fs).getD (rng c2 % (f0 :: fs).length) f0))⟩ := by
    simp only [selectQuestions]
    rw [hfiltered, hfx]
    rw [if_neg (by rw [h96]; omega)]
    rw [hok]
  have harchne : ¬ ((st.archive.length == 0) = true) := by
    simp only [beq_iff_eq, List.length_eq_zero]
    intro hnil
    rw [hnil] at h96
    simp at h96
  have hcore : generateGame none rng today (some d) st =
      generateGameCore none rng d st := by
    unfold generateGame
    show (if hasGameFile st d = true then (st, Except.ok (gameIdFor d))
      else generateGameCore none rng d st) = _
    rw [if_neg (by rw [hfree]; exact Bool.false_ne_true)]
  rw [hcore]
  unfold generateGameCore
  rw [if_neg harchne, hselq]
  simp only [c5Check, producedGame, putGame]
  rw [Bool.and_eq_true]
  have hrest24 : rest.length = 24 := by rw [hrl]
  constructor
  · have hr0 : (buildRounds ([] ++ rest))[0]? = some (buildRound ([] ++ rest) 0) := by
      rw [List.getElem?_eq_getElem (by rw [buildRounds_length]; omega)]
      rw [buildRounds_getElem]
    have hsl : ((((
        [] : List ArchiveQuestion) ++ rest).drop (0 * 3)).take 3).length = 3 := by
      simp [hrest24]
    have hlvl0 : ∀ q ∈ ((([] : List ArchiveQuestion) ++ rest).drop (0 * 3)).take 3,
        getDifficultyLevel (calculateDifficulty q) = "easy" := by
      intro q hq
      have hv := hlvl 0 (by omega) q (by simpa using hq)
      simpa [targetDifficulty] using hv
    have hdiff0 : (buildRound ([] ++ rest) 0).difficulty = "easy" := by
      apply buildRound_difficulty_eq hsl
      apply getDifficultyLevel_easy_iff.mpr
      apply sum3_div_lt (by rw [List.length_map, hsl])
      intro x hx
      obtain ⟨q, hq, rfl⟩ := List.mem_map.mp hx
      exact getDifficultyLevel_easy_iff.mp (hlvl0 q hq)
    show (match (buildRounds ([] ++ rest))[0]? with
      | some r1 => r1.difficulty == "easy"
      | none => false) = true
    rw [hr0]
    show ((buildRound ([] ++ rest) 0).difficulty == "easy") = true
    rw [hdiff0]
    rfl
  · have hr7 : (buildRounds ([] ++ rest))[7]? = some (buildRound ([] ++ rest) 7) := by
      rw [List.getElem?_eq_getElem (by rw [buildRounds_length]; omega)]
      rw [buildRounds_getElem]
    have hsl : ((((
        [] : List ArchiveQuestion) ++ rest).drop (7 * 3)).take 3).length = 3 := by
      simp [hrest24]
    have hlvl7 : ∀ q ∈ ((([] : List ArchiveQuestion) ++ rest).drop (7 * 3)).take 3,
        getDifficultyLevel (calculateDifficulty q) = "expert" := by
      intro q hq
      have h21 : (3 : ℕ) * 7 = 7 * 3 := by omega
      have hv := hlvl 7 (by omega) q (by rw [h21]; simpa using hq)
      simpa [targetDifficulty] using hv
    have hdiff7 : (buildRound ([] ++ rest) 7).difficulty = "expert" := by
      apply buildRound_difficulty_eq hsl
      apply getDifficultyLevel_expert_iff.mpr
      apply sum3_div_ge (by rw [List.length_map, hsl])
      intro x hx
      obtain ⟨q, hq, rfl⟩ := List.mem_map.mp hx
      exact getDifficultyLevel_expert_iff.mp (hlvl7 q hq)
    show (match (buildRounds ([] ++ rest))[7]? with
      | some r8 => r8.difficulty == "expert"
      | none => false) = true
    rw [hr7]
    show ((buildRound ([] ++ rest) 7).difficulty == "expert") = true
    rw [hdiff7]
    rfl

/-- Decidable equality on `Except`, used to evaluate concrete pipeline
results in the witnesses below. -/
instance {ε α : Type _} [DecidableEq ε] [DecidableEq α] : DecidableEq (Except ε α) :=
  fun a b =>
  match a, b with
  | .ok x, .ok y =>
    if h : x = y then .isTrue (congrArg Except.ok h)
    else .isFalse (fun hc => h (Except.ok.inj hc))
  | .error x, .error y =>
    if h : x = y then .isTrue (congrArg Except.error h)
    else .isFalse (fun hc => h (Except.error.inj hc))
  | .ok _, .error _ => .isFalse (fun hc => Except.noConfusion hc)
  | .error _, .ok _ => .isFalse (fun hc => Except.noConfusion hc)

/-! ### Concrete fixtures for the witnesses and counterexamples -/

/-- Concrete clue constructor for the test archives: distinct clue and
answer texts derived from the category and an index. -/
def mkQ (cat : String) (k : ℕ) (v : Int) (rd : String) : ArchiveQuestion :=
  ⟨cat ++ "q" ++ toString k, "a" ++ cat ++ toString k, cat, v, rd⟩

/-- Deterministic random stream: every draw is 0. -/
def rng0 : ℕ → ℕ := fun _ => 0

/-- A 25-clue archive: 8 categories of 3 clues each (two categories per
tier) plus one Final Jeopardy clue — the smallest shape on which
generation succeeds. -/
def tinyArchive : List ArchiveQuestion :=
  (["A", "B"].flatMap (fun c =>
    [mkQ c 0 200 "Jeopardy", mkQ c 1 300 "Jeopardy", mkQ c 2 400 "Jeopardy"]))
  ++ (["C", "D"].flatMap (fun c =>
    [mkQ c 0 700 "Jeopardy", mkQ c 1 800 "Jeopardy", mkQ c 2 900 "Jeopardy"]))
  ++ (["E", "F"].flatMap (fun c =>
    [mkQ c 0 1000 "Double Jeopardy", mkQ c 1 1200 "Double Jeopardy",
     mkQ c 2 1400 "Double Jeopardy"]))
  ++ (["G", "H"].flatMap (fun c =>
    [mkQ c 0 1600 "Double Jeopardy", mkQ c 1 1800 "Double Jeopardy",
     mkQ c 2 2000 "Double Jeopardy"]))
  ++ [mkQ "FIN" 0 0 "Final Jeopardy"]

/-- Fresh state over `tinyArchive`: no games, empty ledger. -/
def tinySt : GenState := ⟨[], [], tinyArchive⟩

/-- The selection result of the tiny run (total by construction; the
fallback arm is unreachable on this input). -/
def tinyRes : SelectResult :=
  match selectQuestions none rng0 tinyArchive [] with
  | .ok r => r
  | .error _ => ⟨[], mkQ "A" 0 0 "", []⟩

/-- A client whose classifier flags the clue "Aq0" for rewriting and
whose rewriter replaces any clue text by "X". -/
def cexClient : Client :=
  { classify := fun q => .ok ⟨false, if q.clue == "Aq0" then some "rewriting" else none⟩
    rewrite := fun _ => .ok "X" }

/-- State whose prior ledger already holds the pair the rewriter will
produce. -/
def cexSt : GenState := ⟨[], ["X|aA0"], tinyArchive⟩

/-- A client whose external calls always error. -/
def errClient : Client :=
  { classify := fun _ => .error "boom"
    rewrite := fun _ => .error "boom" }

/-- The eight categories of the C5 scenario archive. -/
def c5cats : List String := ["ca", "cb", "cc", "cd", "ce", "cf", "cg", "ch"]

/-- The C5 scenario archive exactly as the spec describes it: 8
categories, each with 3 easy, 3 medium, 3 hard and 3 expert clues — 96
clues total, all eligible, and (as the tier arithmetic forces for
non-final clues) none from Final Jeopardy. -/
def c5archNF : List ArchiveQuestion :=
  c5cats.flatMap (fun c =>
    [mkQ c 0 200 "Jeopardy", mkQ c 1 300 "Jeopardy", mkQ c 2 400 "Jeopardy",
     mkQ c 3 700 "Jeopardy", mkQ c 4 800 "Jeopardy", mkQ c 5 900 "Jeopardy",
     mkQ c 6 1000 "Double Jeopardy", mkQ c 7 1200 "Double Jeopardy",
     mkQ c 8 1400 "Double Jeopardy",
     mkQ c 9 1600 "Double Jeopardy", mkQ c 10 1800 "Double Jeopardy",
     mkQ c 11 2000 "Double Jeopardy"])

/-- The amended C5 archive: the scenario archive plus one eligible Final
Jeopardy clue. -/
def c5arch : List ArchiveQuestion := c5archNF ++ [mkQ "FIN" 0 0 "Final Jeopardy"]

/-- Fresh state over the amended C5 archive. -/
def c5St : GenState := ⟨[], [], c5arch⟩

/-- Modelled from the spec: the C5 scenario hypothesis on an archive —
exactly 8 categories, each containing 3 clues of every difficulty tier,
96 clues total, all eligible for the local filter, none used (the
run below starts from an empty ledger). -/
def scenarioCheck (archive : List ArchiveQuestion) : Bool :=
  archive.length == 96
  && (objKeys (archive.map (fun q => q.category))).length == 8
  && (objKeys (archive.map (fun q => q.category))).all (fun cat =>
      (["easy", "medium", "hard", "expert"] : List String).all (fun lvl =>
        (poolFor archive cat lvl).length == 3))
  && archive.all (fun q => !(localDisqualify q).shouldDisqualify)

/-- Witness for C3: a one-clue archive filters to fewer than 24
questions, and generation on a free date fails with the "Not enough
available questions" message, returning the state unchanged. -/
theorem C3_witness :
    generateGame none rng0 0 (some 0) ⟨[], [], [mkQ "A" 0 200 "Jeopardy"]⟩ =
      (⟨[], [], [mkQ "A" 0 200 "Jeopardy"]⟩,
        .error ("Not enough available questions. Need 24, have "
          ++ toString (selFiltered none [mkQ "A" 0 200 "Jeopardy"] ([] : List String)).length)) ∧
    mentionsNotEnough ("Not enough available questions. Need 24, have "
      ++ toString (selFiltered none [mkQ "A" 0 200 "Jeopardy"] ([] : List String)).length)
      = true :=
  C3_insufficient_pool none rng0 0 0 ⟨[], [], [mkQ "A" 0 200 "Jeopardy"]⟩
    (by decide) (by decide) (by decide)

/-- Witness for C4: a $600 Jeopardy clue takes the linear score, a Final
Jeopardy clue scores 80, and the score 10 sits in the medium tier. -/
theorem C4_witness :
    (calculateDifficulty (mkQ "A" 0 600 "Jeopardy")
      = (((mkQ "A" 0 600 "Jeopardy").value : ℚ) - 200) / 800 * 20) ∧
    calculateDifficulty (mkQ "F" 0 0 "Final Jeopardy") = 80 ∧
    (getDifficultyLevel 10 = "medium" ↔ (10 : ℚ) ≤ 10 ∧ (10 : ℚ) < 30) :=
  ⟨(C4_difficulty_scorer.2.1 (mkQ "A" 0 600 "Jeopardy") rfl (by decide) (by decide)).1,
   C4_difficulty_scorer.2.2.2.1 (mkQ "F" 0 0 "Final Jeopardy") rfl,
   (C4_difficulty_scorer.2.2.2.2 10).2.1⟩

/-- Witness for C8: with a client whose calls always error, the
classifier result is non-disqualifying, the rewriter returns the
original clue, and the filter keeps the question unchanged. -/
theorem C8_witness :
    shouldDisqualifyQuestion (some errClient.classify) (mkQ "A" 0 200 "Jeopardy")
      = ⟨false, none⟩ ∧
    rewriteQuestion (some errClient.rewrite) (mkQ "A" 0 200 "Jeopardy")
      = (mkQ "A" 0 200 "Jeopardy").clue ∧
    filterQuestion (some errClient) (mkQ "A" 0 200 "Jeopardy")
      = some (mkQ "A" 0 200 "Jeopardy") :=
  ⟨C8_fail_open.1 errClient.classify (mkQ "A" 0 200 "Jeopardy") "boom" rfl,
   C8_fail_open.2.1 errClient.rewrite (mkQ "A" 0 200 "Jeopardy") "boom" rfl,
   C8_fail_open.2.2 errClient (mkQ "A" 0 200 "Jeopardy") "boom" "boom" rfl rfl⟩

/-- Witness for C9: a state already holding a game for date 0 is
returned untouched together with that game's identifier. -/
theorem C9_witness :
    generateGame none rng0 7 (some 0)
        ⟨[(0, ⟨"game-0", 0, [], ⟨"cat", "q", "a"⟩⟩)], [], []⟩ =
      (⟨[(0, ⟨"game-0", 0, [], ⟨"cat", "q", "a"⟩⟩)], [], []⟩, .ok (gameIdFor 0)) :=
  C9_existing_date_noop none rng0 7 0
    ⟨[(0, ⟨"game-0", 0, [], ⟨"cat", "q", "a"⟩⟩)], [], []⟩ (by decide)

/-- Witness for C1: the successful tiny run produces a game of the
required shape. -/
theorem C1_witness :
    checkProduced gameShapeOk (generateGameCore none rng0 5 tinySt) = true :=
  C1_generated_game_shape none rng0 5 tinySt (generateGameCore none rng0 5 tinySt).1
    "game-5" (Prod.ext rfl (by with_unfolding_all decide))

/-- Witness for C2 (amended): the tiny local-path run satisfies the full
ledger property. -/
theorem C2_witness :
    ledgerCheck tinySt.usedFile (generateGameCore none rng0 5 tinySt) = true :=
  C2_ledger_consistency rng0 5 tinySt (generateGameCore none rng0 5 tinySt).1
    "game-5" (Prod.ext rfl (by with_unfolding_all decide))

/-- Witness for C6: the tiny local-path run's game is anagram-free. -/
theorem C6_witness :
    checkProduced anagramFree (generateGameCore none rng0 5 tinySt) = true :=
  C6_no_anagram_category rng0 5 tinySt (generateGameCore none rng0 5 tinySt).1
    "game-5" (Prod.ext rfl (by with_unfolding_all decide))

set_option maxRecDepth 16384 in
/-- Witness for C7: the tiny run's rounds are derived by projection and
mean-score re-bucketing. -/
theorem C7_witness :
    roundsDerivedOk tinyRes.questions (assembleGame 5 tinyRes) = true :=
  C7_round_assembly none rng0 tinyArchive [] tinyRes 5 (by with_unfolding_all decide)

/-- Witness for C10: the tiny run's game repeats no clue text across
rounds. -/
theorem C10_witness :
    checkProduced (fun g => roundsClueDistinct g.rounds)
      (generateGameCore none rng0 5 tinySt) = true :=
  C10_no_clue_reuse none rng0 5 tinySt (generateGameCore none rng0 5 tinySt).1
    "game-5" (Prod.ext rfl (by with_unfolding_all decide))

/-- Witness for C5 (amended): the concrete 96-clue scenario archive plus
one final clue generates successfully with round 1 easy and round 8
expert (at the all-zero random stream; the theorem gives it for every
stream). -/
theorem C5_witness : c5Check (generateGame none rng0 0 (some 0) c5St) = true :=
  C5_scenario_amended rng0 0 0 c5St (by decide) rfl (by decide)
    (by decide) (by with_unfolding_all decide) (by with_unfolding_all decide)
    (by decide) (by decide)

/-- Counterexample to C2 as stated: with an external rewriter configured
(here: one that rewrites the clue "Aq0" to "X"), generation succeeds and
the emitted game contains the pair "X|aA0", which was already present in
the used-question ledger loaded before generation — because the ledger
check ran against the original clue text, not the rewritten one. -/
theorem C2_claim_counterexample :
    (generateGame (some cexClient) rng0 0 (some 5) cexSt).2 = .ok "game-5" ∧
    "X|aA0" ∈ cexSt.usedFile ∧
    (match producedGame (generateGame (some cexClient) rng0 0 (some 5) cexSt) with
      | some g => (gamePairs g).contains "X|aA0"
      | none => false) = true :=
  ⟨by with_unfolding_all decide, by decide, by with_unfolding_all decide⟩

/-- Counterexample to C5 as stated: a concrete archive satisfying the
scenario exactly — 8 categories, 3 clues of every tier each, 96 clues
total, all eligible, none used — makes generation fail outright, because
`selectQuestions` additionally demands at least one unused Final
Jeopardy clue and the 96 scenario clues are all non-final. -/
theorem C5_claim_counterexample :
    scenarioCheck c5archNF = true ∧
    (generateGame none rng0 0 (some 0) ⟨[], [], c5archNF⟩).2 =
      .error "Not enough available Final Jeopardy questions" :=
  ⟨by with_unfolding_all decide, by with_unfolding_all decide⟩
